import Mathlib

/-!
# pd2-gamefiles-parsing: the string-table reader and the map/monster join

A shallow embedding of `src/main.go`.

* A file is its list of bytes together with a read position; `Read` and `Seek`
  follow the behaviour of Go's `os.File` on a regular file.  `log.Fatal` is the
  outcome `none`.
* A Go `map[K]V` is an association list with unique keys; indexing a missing key
  yields the zero value.
* A Go `int` is a 64-bit two's-complement integer, held as an `Int` in range;
  multiplication wraps and `/` truncates toward zero.
* The pointer `*[]monster` of `mapLevel` is an address into a heap of monster
  slices, so that sharing of one slice between several `mapLevel` copies is
  visible.
-/

namespace Pd2

/-! ## Go maps -/

/-- A Go `map[K]V` as an association list. -/
abbrev GoMap (κ α : Type) := List (κ × α)

namespace GoMap

variable {κ α : Type}

/-- The comma-ok lookup `v, ok := m[k]`. -/
def get? [DecidableEq κ] : GoMap κ α → κ → Option α
  | [], _ => none
  | (k', v) :: rest, k => if k' = k then some v else get? rest k

/-- The assignment `m[k] = v`: an existing entry for `k` is replaced. -/
def set [DecidableEq κ] (m : GoMap κ α) (k : κ) (v : α) : GoMap κ α :=
  (k, v) :: m.filter (fun p => !decide (p.1 = k))

/-- The keys of the map. -/
def keys (m : GoMap κ α) : List κ := m.map Prod.fst

/-- Indexing a `map[string]string`: a missing key (also on a nil map) reads as `""`. -/
def index (m : GoMap String String) (k : String) : String := (get? m k).getD ""

end GoMap

/-! ## Bytes and files -/

/-- One byte. -/
abbrev Byte := Fin 256

/-- An open `os.File` on a regular file: the contents and the current offset. -/
structure File where
  data : List Byte
  pos : Nat
deriving DecidableEq, Repr

namespace File

/-- The call `f.Seek(off, io.SeekCurrent)` with `off ≥ 0`; seeking past the end of a
regular file is not an error. -/
def SeekCurrent (f : File) (off : Nat) : File := { f with pos := f.pos + off }

/-- The call `f.Seek(off, io.SeekStart)` with `off ≥ 0`. -/
def SeekStart (f : File) (off : Nat) : File := { f with pos := off }

/-- The call `f.Read(buf)` on a freshly made (zeroed) buffer of `n` bytes.  At or past
the end of the file the call reports `io.EOF` (`none`).  Otherwise it copies the
`min n (size - pos)` bytes that are available and reports no error, also when that is
fewer than `n`: the rest of the buffer keeps its zeroes.  The result is the buffer
and the advanced file. -/
def Read (f : File) (n : Nat) : Option (List Byte × File) :=
  if n = 0 then some ([], f)
  else if f.data.length ≤ f.pos then none
  else
    let got := (f.data.drop f.pos).take n
    some (got ++ List.replicate (n - got.length) 0, { f with pos := f.pos + got.length })

end File

/-- Little-endian 16-bit decoding, `binary.LittleEndian.Uint16`. -/
def Uint16 (b : List Byte) : Nat := (b.getD 0 0).val + 256 * (b.getD 1 0).val

/-- Little-endian 32-bit decoding, `binary.LittleEndian.Uint32`. -/
def Uint32 (b : List Byte) : Nat :=
  (b.getD 0 0).val + 256 * (b.getD 1 0).val + 65536 * (b.getD 2 0).val
    + 16777216 * (b.getD 3 0).val

/-! ## The string-table reader -/

/-- The loop of `readBytes` over the bytes from the current offset on: each round reads
one byte, fails at the end of the file, stops at `delim` and otherwise appends the
byte to `content`. -/
def readBytesLoop (delim : Byte) : List Byte → List Byte → Option (List Byte)
  | [], _ => none
  | b :: rest, content =>
    if b = delim then some content else readBytesLoop delim rest (content ++ [b])

/-- `readBytes(f, delim)`: the bytes up to and excluding the first `delim`, with the
file left just after that `delim`; `none` is the error return. -/
def readBytes (f : File) (delim : Byte) : Option (List Byte × File) :=
  match readBytesLoop delim (f.data.drop f.pos) [] with
  | none => none
  | some content => some (content, { f with pos := f.pos + content.length + 1 })

/-- `readTblElements(f, numberOfElements)`: one 2-byte read per element. -/
def readTblElements : File → Nat → Option (List Nat × File)
  | f, 0 => some ([], f)
  | f, n + 1 =>
    match f.Read 2 with
    | none => none
    | some (elementRaw, f1) =>
      match readTblElements f1 n with
      | none => none
      | some (elements, f2) => some (Uint16 elementRaw :: elements, f2)

/-- One round of the element loop of `readTbl`: locate the hash node, read the two
offsets, read the two strings; the result is the key, the value and the file. -/
def readTblNode (f : File) (nodeStart element : Nat) :
    Option (List Byte × List Byte × File) := do
  let f := f.SeekStart (nodeStart + element * 17)
  let f := f.SeekCurrent 1
  let f := f.SeekCurrent 2
  let f := f.SeekCurrent 4
  let (keyOffsetRaw, f) ← f.Read 4
  let keyOffset := Uint32 keyOffsetRaw
  let (stringOffsetRaw, f) ← f.Read 4
  let stringOffset := Uint32 stringOffsetRaw
  let f := f.SeekCurrent 2
  let f := f.SeekStart keyOffset
  let (keyRaw, f) ← readBytes f 0
  let f := f.SeekStart stringOffset
  let (valueRaw, f) ← readBytes f 0
  pure (keyRaw, valueRaw, f)

/-- The element loop of `readTbl`, with `tbl[key] = value` after each round. -/
def readTblLoop (nodeStart : Nat) :
    List Nat → File → GoMap (List Byte) (List Byte) → Option (GoMap (List Byte) (List Byte))
  | [], _, tbl => some tbl
  | element :: rest, f, tbl =>
    match readTblNode f nodeStart element with
    | none => none
    | some (key, value, f1) => readTblLoop nodeStart rest f1 (tbl.set key value)

/-- `readTbl` on the contents of the opened file. -/
def readTbl (data : List Byte) : Option (GoMap (List Byte) (List Byte)) := do
  let f : File := { data := data, pos := 0 }
  let f := f.SeekCurrent 2
  let (numberOfElementsRaw, f) ← f.Read 2
  let numberOfElements := Uint16 numberOfElementsRaw
  let f := f.SeekCurrent 4
  let f := f.SeekCurrent 1
  let f := f.SeekCurrent 4
  let f := f.SeekCurrent 4
  let f := f.SeekCurrent 4
  let (elements, f) ← readTblElements f numberOfElements
  let nodeStart := f.pos
  readTblLoop nodeStart elements f []

/-! ## Go library functions used by the join -/

/-- Conversion to the 64-bit Go `int`: the representative in `[-2^63, 2^63)`. -/
def toInt64 (x : Int) : Int := (x + 9223372036854775808) % 18446744073709551616 - 9223372036854775808

/-- Go `a * b` on `int`: the product wraps. -/
def mulInt (a b : Int) : Int := toInt64 (a * b)

/-- Go `a / b` on `int` for a divisor other than `0` and `-1`: truncation toward zero. -/
def divInt (a b : Int) : Int := Int.tdiv a b

/-- The two error kinds of package `strconv`. -/
inductive NumError where
  | ErrSyntax
  | ErrRange
deriving DecidableEq, Repr

/-- The digit loop of `strconv.ParseUint(s, 10, 64)`: a character that is not a decimal
digit is a syntax error with value `0`; overflow of 64 bits is a range error with value
`2^64 - 1`, reported as soon as it happens. -/
def ParseUintLoop : List Char → Nat → Nat × Option NumError
  | [], n => (n, none)
  | c :: cs, n =>
    if c.isDigit then
      if 1844674407370955162 ≤ n then (18446744073709551615, some NumError.ErrRange)
      else
        let n1 := n * 10 + (c.toNat - 48)
        if 18446744073709551615 < n1 then (18446744073709551615, some NumError.ErrRange)
        else ParseUintLoop cs n1
    else (0, some NumError.ErrSyntax)

/-- `strconv.ParseUint(s, 10, 64)`. -/
def ParseUint (s : List Char) : Nat × Option NumError :=
  if s = [] then (0, some NumError.ErrSyntax) else ParseUintLoop s 0

/-- `strconv.ParseInt(s, 10, 0)` with 64-bit `int`: an optional sign, then `ParseUint`;
a syntax error gives `0`, a magnitude out of range gives the nearest bound together
with a range error. -/
def ParseInt (s : List Char) : Int × Option NumError :=
  if s = [] then (0, some NumError.ErrSyntax)
  else
    let neg : Bool := s.head? = some '-'
    let s1 := if s.head? = some '+' ∨ s.head? = some '-' then s.tail else s
    match ParseUint s1 with
    | (_, some NumError.ErrSyntax) => (0, some NumError.ErrSyntax)
    | (un, _) =>
      if neg = false ∧ 9223372036854775808 ≤ un then
        (9223372036854775807, some NumError.ErrRange)
      else if neg = true ∧ 9223372036854775808 < un then
        (-9223372036854775808, some NumError.ErrRange)
      else (if neg then toInt64 (-(toInt64 un)) else toInt64 un, none)

/-- `strconv.Atoi` on a 64-bit platform: the value and the error.  Its fast path for
short inputs returns the same value and error kind as `ParseInt(s, 10, 0)`. -/
def Atoi (s : String) : Int × Option NumError := ParseInt s.toList

/-- `unicode.IsSpace`. -/
def IsSpace (c : Char) : Bool :=
  let n := c.toNat
  n = 9 || n = 10 || n = 11 || n = 12 || n = 13 || n = 32 || n = 133 || n = 160
    || n = 5760 || (8192 ≤ n && n ≤ 8202) || n = 8232 || n = 8233 || n = 8239
    || n = 8287 || n = 12288

/-- `strings.TrimSpace`: leading and trailing white space removed. -/
def TrimSpace (s : String) : String :=
  String.mk ((s.toList.dropWhile IsSpace).reverse.dropWhile IsSpace).reverse

/-! ## Records, monsters and maps -/

/-- One row of a delimited data file, `map[string]string`. -/
abbrev Record := GoMap String String

/-- The struct `monster`. -/
structure monster where
  DisplayName : String
  PhysRes : Int
  MagicRes : Int
  FireRes : Int
  LightningRes : Int
  ColdRes : Int
  PoisonRes : Int
  MinHpClosedBnet : Int
  MaxHpClosedBnet : Int
  MinHpOpenBnet : Int
  MaxHpOpenBnet : Int
deriving DecidableEq, Repr

/-- The struct `mapLevel`; `Monsters` is the pointer `*[]monster`, an address in the
heap. -/
structure mapLevel where
  DisplayName : String
  Tier : Int
  Monsters : Nat
deriving DecidableEq, Repr

/-- The monster slices allocated by `new([]monster)`, by address. -/
abbrev Heap := List (List monster)

/-- The slice `*p`. -/
def Heap.deref (h : Heap) (p : Nat) : List monster := h.getD p []

/-- The statement `*p = append(*p, x)`. -/
def Heap.append (h : Heap) (p : Nat) (x : monster) : Heap := h.set p (h.deref p ++ [x])

/-- `groupMonsterLevelsById`. -/
def groupMonsterLevelsById (monsterLevels : List Record) : GoMap String Record :=
  monsterLevels.foldl
    (fun monsterLevelsById monsterLevel =>
      monsterLevelsById.set (monsterLevel.index "Level")
        [("hpClosedBnet", monsterLevel.index "HP(H)"),
         ("hpOpenBnet", monsterLevel.index "L-HP(H)")])
    []

/-- The table `mapTiers` of `getMapsFromMisc`. -/
def mapTiers : GoMap String Int :=
  [("t1m", 1), ("t2m", 2), ("t3m", 3), ("t4m", 4), ("t5m", 5)]

/-- The body of the loop of `getMapsFromMisc` for one misc item; a qualifying item gets
a freshly allocated, empty monster slice. -/
def getMapsFromMiscStep (st : GoMap String mapLevel × Heap) (item : Record) :
    GoMap String mapLevel × Heap :=
  let t := item.index "type"
  let spawnable := item.index "spawnable"
  match mapTiers.get? t with
  | some mapTier =>
    if spawnable = "1" ∨ t = "t5m" then
      (st.1.set (item.index "len")
          { DisplayName := item.index "*name", Tier := mapTier, Monsters := st.2.length },
        st.2 ++ [[]])
    else st
  | none => st

/-- `getMapsFromMisc`, started on the heap `h`; the result is the map and the heap. -/
def getMapsFromMiscOn (h : Heap) (miscItems : List Record) : GoMap String mapLevel × Heap :=
  miscItems.foldl getMapsFromMiscStep ([], h)

/-- `getMapsFromMisc`. -/
def getMapsFromMisc (miscItems : List Record) : GoMap String mapLevel × Heap :=
  getMapsFromMiscOn [] miscItems

/-! ## The join of `main` -/

/-- The fifteen-way comparison of `main`: some slot `mon1` .. `mon15` of the level
record equals the monster's `Id`. -/
def slotMatch (l m : Record) : Bool :=
  l.index "mon1" = m.index "Id" ||
  l.index "mon2" = m.index "Id" ||
  l.index "mon3" = m.index "Id" ||
  l.index "mon4" = m.index "Id" ||
  l.index "mon5" = m.index "Id" ||
  l.index "mon6" = m.index "Id" ||
  l.index "mon7" = m.index "Id" ||
  l.index "mon8" = m.index "Id" ||
  l.index "mon9" = m.index "Id" ||
  l.index "mon10" = m.index "Id" ||
  l.index "mon11" = m.index "Id" ||
  l.index "mon12" = m.index "Id" ||
  l.index "mon13" = m.index "Id" ||
  l.index "mon14" = m.index "Id" ||
  l.index "mon15" = m.index "Id"

/-- A resistance field: `v, err := strconv.Atoi(s); if err != nil { v = 0 }`. -/
def resistance (s : String) : Int :=
  match Atoi s with
  | (v, none) => v
  | (_, some _) => 0

/-- The condition `str, ok := t[k]; ok && strings.TrimSpace(str) != ""` of the
display-name chain: the value when the condition holds. -/
def nonBlankEntry (t : GoMap String String) (k : String) : Option String :=
  match t.get? k with
  | some str => if TrimSpace str ≠ "" then some str else none
  | none => none

/-- The display-name chain of `main` for the key `m["NameStr"]`: the name and the lines
printed while finding it. -/
def displayName (stringString patchString expansionString : GoMap String String)
    (nameStr : String) : String × List String :=
  match nonBlankEntry stringString nameStr with
  | some str => (str, [])
  | none =>
    match nonBlankEntry patchString nameStr with
    | some str => (str, [])
    | none =>
      match nonBlankEntry expansionString nameStr with
      | some str => (str, [])
      | none => (nameStr, ["Could not match display name monster " ++ nameStr ++ "\n"])

/-- The inputs of the join that stay fixed during the loops of `main`. -/
structure Tables where
  stringString : GoMap String String
  patchString : GoMap String String
  expansionString : GoMap String String
  monsterLevels : GoMap String Record

/-- The monster value that `main` builds for level record `l` and monster record `m`,
with the lines printed on the way. -/
def mkMonster (T : Tables) (l m : Record) : monster × List String :=
  let monsterPhysRes := resistance (m.index "ResDm(H)")
  let monsterMagicRes := resistance (m.index "ResMa(H)")
  let monsterFireRes := resistance (m.index "ResFi(H)")
  let monsterLightningRes := resistance (m.index "ResLi(H)")
  let monsterColdRes := resistance (m.index "ResCo(H)")
  let monsterPoisonRes := resistance (m.index "ResPo(H)")
  let named := displayName T.stringString T.patchString T.expansionString (m.index "NameStr")
  let monsterLevel : Record := (T.monsterLevels.get? (l.index "MonLvl3")).getD []
  let hpMultiplierClosedBnet := (Atoi (monsterLevel.index "hpClosedBnet")).1
  let hpMultiplierOpenBnet := (Atoi (monsterLevel.index "hpOpenBnet")).1
  let baseMinHp := (Atoi (m.index "minHP")).1
  let baseMaxHp := (Atoi (m.index "maxHP")).1
  let minHpClosedBnet := divInt (mulInt hpMultiplierClosedBnet baseMinHp) 100
  let maxHpClosedBnet := divInt (mulInt hpMultiplierClosedBnet baseMaxHp) 100
  let minHpOpenBnet := divInt (mulInt hpMultiplierOpenBnet baseMinHp) 100
  let maxHpOpenBnet := divInt (mulInt hpMultiplierOpenBnet baseMaxHp) 100
  ({ DisplayName := named.1,
     PhysRes := monsterPhysRes,
     MagicRes := monsterMagicRes,
     FireRes := monsterFireRes,
     LightningRes := monsterLightningRes,
     ColdRes := monsterColdRes,
     PoisonRes := monsterPoisonRes,
     MinHpClosedBnet := minHpClosedBnet,
     MaxHpClosedBnet := maxHpClosedBnet,
     MinHpOpenBnet := minHpOpenBnet,
     MaxHpOpenBnet := maxHpOpenBnet },
   named.2)

/-- The state of the loops of `main`: the heap of monster slices, the lines printed so
far, and the slice `output`. -/
structure JoinState where
  heap : Heap
  stdout : List String
  output : List mapLevel
deriving DecidableEq, Repr

/-- The body of the inner loop of `main` for one monster record `m`, under level record
`l` and its map `ml`: on the heap and the printed lines. -/
def monsterStep (T : Tables) (l : Record) (ml : mapLevel) (st : Heap × List String)
    (m : Record) : Heap × List String :=
  if m.index "NameStr" = "" then st
  else if slotMatch l m then
    let r := mkMonster T l m
    (st.1.append ml.Monsters r.1, st.2 ++ r.2)
  else st

/-- The body of the outer loop of `main` for one level record `l`. -/
def levelStep (T : Tables) (mapLevels : GoMap String mapLevel) (monsters : List Record)
    (st : JoinState) (l : Record) : JoinState :=
  match mapLevels.get? (l.index "Id") with
  | none => st
  | some ml =>
    let printed := st.stdout ++ ["Found map " ++ l.index "Name" ++ " " ++ ml.DisplayName ++ "\n"]
    let r := monsters.foldl (monsterStep T l ml) (st.heap, printed)
    { heap := r.1, stdout := r.2, output := st.output ++ [ml] }

/-- The part of `main` between reading the inputs and encoding the output: from the
three string tables and the four record lists to the final state. -/
def join (stringString patchString expansionString : GoMap String String)
    (monsters monsterLevelRows misc levels : List Record) : JoinState :=
  let monsterLevels := groupMonsterLevelsById monsterLevelRows
  let mapLevels := getMapsFromMisc misc
  let T : Tables := { stringString := stringString, patchString := patchString,
                      expansionString := expansionString, monsterLevels := monsterLevels }
  levels.foldl (levelStep T mapLevels.1 monsters)
    { heap := mapLevels.2, stdout := [], output := [] }

/-- One object of the JSON array written by `main`: a `mapLevel` with its monster slice
read through the pointer. -/
structure mapLevelJson where
  displayName : String
  tier : Int
  monsters : List monster
deriving DecidableEq, Repr

/-- The array that `json.Marshal(output)` encodes at the end of `main`. -/
def JoinState.json (st : JoinState) : List mapLevelJson :=
  st.output.map (fun ml =>
    { displayName := ml.DisplayName, tier := ml.Tier, monsters := st.heap.deref ml.Monsters })

/-! ## Specification-side definitions -/

/-- Following the spec's words: a value is blank when it is empty or consists of white
space only. -/
def blank (v : String) : Bool := v.toList.all IsSpace

/-- Following the spec's words: the tables are consulted in the given order, and the first
one that holds a non-blank value for the key supplies that value, as stored; a table in
which the key is missing or blank is passed over. -/
def firstNonBlank : List (GoMap String String) → String → Option String
  | [], _ => none
  | t :: ts, k =>
    match t.get? k with
    | some v => if blank v then firstNonBlank ts k else some v
    | none => firstNonBlank ts k

/-- The diagnostic printed for a name-string key that no table resolves. -/
def noMatchLine (nameStr : String) : String :=
  "Could not match display name monster " ++ nameStr ++ "\n"

/-! ## The end-to-end scenario of the spec -/

/-- The base string table of the scenario. -/
def scenarioString : GoMap String String := [("42", "Skeleton")]

/-- The misc records of the scenario. -/
def scenarioMisc : List Record :=
  [[("type", "t1m"), ("spawnable", "1"), ("len", "5"), ("*name", "Blood Moor")]]

/-- The level records of the scenario. -/
def scenarioLevels : List Record :=
  [[("Id", "5"), ("Name", "lvl5"), ("mon1", "99"), ("MonLvl3", "3")]]

/-- The monster records of the scenario. -/
def scenarioMonsters : List Record :=
  [[("Id", "99"), ("NameStr", "42"), ("minHP", "10"), ("maxHP", "20"), ("ResFi(H)", "50")]]

/-- The level-multiplier records of the scenario. -/
def scenarioMonLvl : List Record :=
  [[("Level", "3"), ("HP(H)", "120"), ("L-HP(H)", "100")]]

/-- The fixed tables of the scenario. -/
def scenarioTables : Tables :=
  { stringString := scenarioString, patchString := [], expansionString := [],
    monsterLevels := groupMonsterLevelsById scenarioMonLvl }

/-- A monster record whose name-string key is in no string table. -/
def unnamedMonster : Record := [("Id", "99"), ("NameStr", "zz")]

/-- Following the spec's words: the hit-point bound floor((M × B) / 100). -/
def hpFloor (M B : Int) : Int := ⌊((M * B : Int) : ℚ) / 100⌋

/-- The products on which truncating and flooring division by 100 agree and which fit the
64-bit `int`: those in `[-2^63, 2^63)` that are non-negative or multiples of 100. -/
def floorAgrees (x : Int) : Prop :=
  -9223372036854775808 ≤ x ∧ x < 9223372036854775808 ∧ (0 ≤ x ∨ 100 ∣ x)

/-- A level-multiplier table with a negative multiplier. -/
def negativeTables : Tables :=
  { stringString := [], patchString := [], expansionString := [],
    monsterLevels :=
      groupMonsterLevelsById [[("Level", "3"), ("HP(H)", "-1"), ("L-HP(H)", "100")]] }

/-- Following the spec's words: a misc record qualifies as a map when its type is one of
the five map-tier codes and it is spawnable or of tier 5. -/
def qualifies (item : Record) : Bool :=
  decide (item.index "type" ∈ ["t1m", "t2m", "t3m", "t4m", "t5m"]) &&
    (decide (item.index "spawnable" = "1") || decide (item.index "type" = "t5m"))

/-- Following the spec's words: the tier number is the digit of the type code. -/
def tierDigit (code : String) : Int :=
  match code.toList with
  | [_, d, _] => (d.toNat : Int) - 48
  | _ => 0

/-- The names of the fifteen monster slots of a level record. -/
def slotNames : List String :=
  ["mon1", "mon2", "mon3", "mon4", "mon5", "mon6", "mon7", "mon8", "mon9", "mon10",
   "mon11", "mon12", "mon13", "mon14", "mon15"]

/-- Following the spec's words: a monster definition is attached to a level record when
its `NameStr` is non-empty and its `Id` is string-equal to the value of at least one of
the slot fields `mon1` .. `mon15`, an absent field reading as the empty string. -/
def attaches (l m : Record) : Bool :=
  !decide (m.index "NameStr" = "") &&
    slotNames.any (fun s => decide (l.index s = m.index "Id"))

/-- Following the spec's words: the attached monster definitions of a level record, as
the subsequence of the monster file in file order. -/
def attachedRecords (l : Record) (monsters : List Record) : List Record :=
  monsters.filter (attaches l)

/-- The monster entries built from the attached records of a level record. -/
def attachedMonsters (T : Tables) (l : Record) (monsters : List Record) : List monster :=
  (attachedRecords l monsters).map (fun m => (mkMonster T l m).1)

/-- The fixed tables that `join` works with. -/
def joinTables (stringString patchString expansionString : GoMap String String)
    (monsterLevelRows : List Record) : Tables :=
  { stringString := stringString, patchString := patchString,
    expansionString := expansionString,
    monsterLevels := groupMonsterLevelsById monsterLevelRows }

/-- The pointers held in a map of `mapLevel` values are allocated in the heap and no two
keys share one. -/
def PtrOK (mp : GoMap String mapLevel) (h : Heap) : Prop :=
  (∀ k ml, mp.get? k = some ml → ml.Monsters < h.length) ∧
  (∀ k k' ml ml', mp.get? k = some ml → mp.get? k' = some ml' →
    ml.Monsters = ml'.Monsters → k = k')

/-! ## The table layout, in the words of the spec -/

/-- Byte `i` of the file as a number; past the end of the file it reads as zero. -/
def byteAt (b : List Byte) (i : Nat) : Nat := (b.getD i 0).val

/-- The little-endian 16-bit word at byte `i`. -/
def le16At (b : List Byte) (i : Nat) : Nat := byteAt b i + 256 * byteAt b (i + 1)

/-- The little-endian 32-bit word at byte `i`. -/
def le32At (b : List Byte) (i : Nat) : Nat :=
  byteAt b i + 256 * byteAt b (i + 1) + 65536 * byteAt b (i + 2) + 16777216 * byteAt b (i + 3)

/-- A string: the bytes from the absolute offset `off` up to and excluding the first
zero byte. -/
def cstringAt (b : List Byte) (off : Nat) : List Byte :=
  (b.drop off).takeWhile (fun x => !decide (x = 0))

/-- The string at `off` lies inside the file: a zero byte occurs at or after `off`. -/
def terminatedAt (b : List Byte) (off : Nat) : Prop := (0 : Byte) ∈ b.drop off

instance (b : List Byte) (off : Nat) : Decidable (terminatedAt b off) := by
  unfold terminatedAt; infer_instance

/-- The element count `N`, at bytes 2-3. -/
def elementCount (b : List Byte) : Nat := le16At b 2

/-- The element position `ElementIndex[i]`: the `i`-th 16-bit word from byte 21 on. -/
def elementIndex (b : List Byte) (i : Nat) : Nat := le16At b (21 + 2 * i)

/-- The byte at which the hash node of element `i` starts. -/
def nodeOffset (b : List Byte) (i : Nat) : Nat :=
  21 + 2 * elementCount b + 17 * elementIndex b i

/-- The key offset of element `i`, at node bytes 7-10. -/
def keyOffset (b : List Byte) (i : Nat) : Nat := le32At b (nodeOffset b i + 7)

/-- The value offset of element `i`, at node bytes 11-14. -/
def valueOffset (b : List Byte) (i : Nat) : Nat := le32At b (nodeOffset b i + 11)

/-- The key string of element `i`. -/
def elementKey (b : List Byte) (i : Nat) : List Byte := cstringAt b (keyOffset b i)

/-- The value string of element `i`. -/
def elementValue (b : List Byte) (i : Nat) : List Byte := cstringAt b (valueOffset b i)

/-- A well-formed table file: the header and the `N` element positions, every referenced
17-byte node and both zero-terminated strings of every element lie inside the file, and
the `N` keys are pairwise distinct. -/
structure WellFormed (b : List Byte) : Prop where
  positions : 21 + 2 * elementCount b ≤ b.length
  nodes : ∀ i < elementCount b, nodeOffset b i + 17 ≤ b.length
  keys : ∀ i < elementCount b, terminatedAt b (keyOffset b i)
  values : ∀ i < elementCount b, terminatedAt b (valueOffset b i)
  distinct : ∀ i < elementCount b, ∀ j < elementCount b,
    elementKey b i = elementKey b j → i = j

/-- A table file with one element: key "a" at offset 40, value "b" at offset 42. -/
def sampleTbl : List Byte :=
  [0, 0, 1, 0, 0, 0, 0, 0, 0, 0, 0, 0, 0, 0, 0, 0, 0, 0, 0, 0, 0,
   0, 0,
   1, 0, 0, 0, 0, 0, 0, 40, 0, 0, 0, 42, 0, 0, 0, 1, 0,
   97, 0, 98, 0]

/-- A table file cut off inside its only hash node, after 2 of the 4 bytes of the value
offset; the key "a" (offset 4) and the value "b" (offset 6) sit in skipped header
fields. -/
def truncatedTbl : List Byte :=
  [0, 0, 1, 0, 97, 0, 98, 0, 0, 0, 0, 0, 0, 0, 0, 0, 0, 0, 0, 0, 0,
   0, 0,
   1, 0, 0, 0, 0, 0, 0, 4, 0, 0, 0, 6, 0]

/-! ## The delimited record reader -/

/-- The item that the loop of `readDataFile` builds from one record:
`item[strings.TrimSpace(key)] = strings.TrimSpace(record[i])` for each header field. -/
def readDataFileItem (header record : List String) : Record :=
  (List.zip header record).foldl
    (fun item kv => GoMap.set item (TrimSpace kv.1) (TrimSpace kv.2)) []

/-- The loop of `readDataFile` over the records that the `csv.Reader` yields after the
header.  The reader takes the number of fields from the first record, so a record with
another number of fields is its error `ErrFieldCount`, which is fatal. -/
def readDataFileLoop (header : List String) :
    List (List String) → List Record → Option (List Record)
  | [], items => some items
  | record :: rest, items =>
    if record.length = header.length then
      readDataFileLoop header rest (items ++ [readDataFileItem header record])
    else none

/-- `readDataFile` on the records of the file as the tab-separated `csv.Reader` splits
them.  No record at all is `io.EOF` at the header, which is fatal.  The slice `items`
starts as `make([]map[string]string, len(header))`: `len(header)` nil maps. -/
def readDataFile (records : List (List String)) : Option (List Record) :=
  match records with
  | [] => none
  | header :: rest => readDataFileLoop header rest (List.replicate header.length [])

/-! ## Decimal fields, in the words of the spec -/

/-- The number denoted by a run of decimal digits, `n` being the number denoted by the
digits before it. -/
def digitsValue : List Char → Nat → Nat
  | [], n => n
  | c :: cs, n => digitsValue cs (n * 10 + (c.toNat - 48))

/-- Following the spec's words: the integer that a field denotes when it parses as a
decimal integer, that is an optional sign followed by one or more decimal digits whose
value lies in the machine integer range `[-2^63, 2^63)`; `none` in every other case. -/
def decimalInt (s : String) : Option Int :=
  let cs := s.toList
  let neg : Bool := cs.head? = some '-'
  let ds := if cs.head? = some '+' ∨ cs.head? = some '-' then cs.tail else cs
  if ds ≠ [] ∧ ds.all Char.isDigit = true then
    let v : Int := if neg then -(digitsValue ds 0 : Int) else (digitsValue ds 0 : Int)
    if -9223372036854775808 ≤ v ∧ v < 9223372036854775808 then some v else none
  else none

/-- A level-multiplier table whose closed multiplier is a decimal number just above the
64-bit integer range. -/
def rangeTables : Tables :=
  { stringString := [], patchString := [], expansionString := [],
    monsterLevels :=
      groupMonsterLevelsById
        [[("Level", "3"), ("HP(H)", "9223372036854775808"), ("L-HP(H)", "100")]] }

/-- A level-multiplier table with one row whose `Level` field is empty. -/
def emptyLevelTables : Tables :=
  { stringString := [], patchString := [], expansionString := [],
    monsterLevels :=
      groupMonsterLevelsById [[("Level", ""), ("HP(H)", "120"), ("L-HP(H)", "100")]] }

/-- Two level records that carry the same `Id`, with different monster slots. -/
def sharedIdLevels : List Record :=
  [[("Id", "5"), ("Name", "lvl5"), ("mon1", "99"), ("MonLvl3", "3")],
   [("Id", "5"), ("Name", "lvl5b"), ("mon1", "98"), ("MonLvl3", "3")]]

/-- Two monster records, one for each of the slots of `sharedIdLevels`. -/
def sharedIdMonsters : List Record :=
  [[("Id", "99"), ("NameStr", "42"), ("minHP", "10"), ("maxHP", "20")],
   [("Id", "98"), ("NameStr", "Zombie"), ("minHP", "1"), ("maxHP", "2")]]

/-- A level record that names the same monster in three slots. -/
def repeatedSlotLevel : Record :=
  [("Id", "5"), ("mon1", "99"), ("mon2", "99"), ("mon7", "99"), ("MonLvl3", "3")]

/-- The loop of `readBytes` run for a given number of rounds, each round one call of
`f.Read` on the one-byte buffer.  The outer `none` says that the loop is still running
after those rounds; `some r` says that `readBytes` has returned `r`, where `r = none` is
the error return. -/
def readBytesRounds : Nat → File → Byte → List Byte → Option (Option (List Byte × File))
  | 0, _, _, _ => none
  | rounds + 1, f, delim, content =>
    match f.Read 1 with
    | none => some none
    | some (buffer, f1) =>
      if buffer.getD 0 0 = delim then some (some (content, f1))
      else readBytesRounds rounds f1 delim (content ++ [buffer.getD 0 0])

/-- A table file that `readTbl` can read through: the header and the `N` element
positions, every referenced node and both zero-terminated strings of every element lie
inside the file.  Keys may repeat. -/
structure Readable (b : List Byte) : Prop where
  positions : 21 + 2 * elementCount b ≤ b.length
  nodes : ∀ i < elementCount b, nodeOffset b i + 17 ≤ b.length
  keys : ∀ i < elementCount b, terminatedAt b (keyOffset b i)
  values : ∀ i < elementCount b, terminatedAt b (valueOffset b i)

/-- A table file with two elements that share the key "a" (offset 59); the first has the
value "b" (offset 61), the second the value "c" (offset 63). -/
def duplicateKeyTbl : List Byte :=
  [0, 0, 2, 0, 0, 0, 0, 0, 0, 0, 0, 0, 0, 0, 0, 0, 0, 0, 0, 0, 0,
   0, 0, 1, 0,
   1, 0, 0, 0, 0, 0, 0, 59, 0, 0, 0, 61, 0, 0, 0, 1, 0,
   1, 1, 0, 0, 0, 0, 0, 59, 0, 0, 0, 63, 0, 0, 0, 1, 0,
   97, 0, 98, 0, 99, 0]

/-- Following the spec's words: byte `j` lies in a field that `readTbl` skips, that is in
header bytes 0-1 (CRC) or 4-20 (hash-table size, unknown byte, string-region start, miss
tolerance, string-region end), or in bytes 0-6 (used flag, index number, hash value) or
15-16 (string length) of a referenced hash node. -/
def skippedByte (b : List Byte) (j : Nat) : Bool :=
  decide (j < 2) || (decide (4 ≤ j) && decide (j < 21)) ||
    (List.range (elementCount b)).any (fun i =>
      (decide (nodeOffset b i ≤ j) && decide (j < nodeOffset b i + 7)) ||
      (decide (nodeOffset b i + 15 ≤ j) && decide (j < nodeOffset b i + 17)))

/-- The file `sampleTbl` with every skipped field changed; in particular the used flag
of its element (byte 23) is 0. -/
def unusedFlagTbl : List Byte :=
  [9, 9, 1, 0, 7, 7, 7, 7, 7, 7, 7, 7, 7, 7, 7, 7, 7, 7, 7, 7, 7,
   0, 0,
   0, 5, 5, 6, 6, 6, 6, 40, 0, 0, 0, 42, 0, 0, 0, 9, 9,
   97, 0, 98, 0]

/-- Two level records of one `Id`; only the first names a monster. -/
def halfMatchedLevels : List Record :=
  [[("Id", "5"), ("Name", "lvl5"), ("mon1", "99"), ("MonLvl3", "3")],
   [("Id", "5"), ("Name", "lvl5b")]]

/-- Two misc records that qualify as maps: a tier-1 map and a unique map. -/
def twoMapMisc : List Record :=
  [[("type", "t1m"), ("spawnable", "1"), ("len", "5"), ("*name", "Blood Moor")],
   [("type", "t5m"), ("spawnable", "0"), ("len", "6"), ("*name", "Den")]]

/-- Three level records: a map with a monster, a level that is no map, and a map whose
only slot names no monster of the monster file. -/
def twoMapLevels : List Record :=
  [[("Id", "5"), ("Name", "lvl5"), ("mon1", "99"), ("MonLvl3", "3")],
   [("Id", "7"), ("Name", "town"), ("mon1", "99")],
   [("Id", "6"), ("Name", "lvl6"), ("mon1", "12"), ("MonLvl3", "3")]]

/-! # Properties -/

/-! ## White space -/

theorem dropWhile_twice_nil {α : Type} (p : α → Bool) (l : List α) :
    ((l.dropWhile p).reverse.dropWhile p).reverse = [] ↔ l.all p = true := by
  rw [List.reverse_eq_nil_iff, List.dropWhile_eq_nil_iff]
  constructor
  · intro h
    have h2 : l.dropWhile p = [] := by
      by_contra hne
      have := List.head_dropWhile_not p l hne
      have hm : (l.dropWhile p).head hne ∈ (l.dropWhile p).reverse :=
        List.mem_reverse.mpr (List.head_mem hne)
      simp [h _ hm] at this
    rw [List.dropWhile_eq_nil_iff] at h2
    simpa using h2
  · intro h x hx
    have hx2 : x ∈ l := (List.dropWhile_sublist p).subset (List.mem_reverse.mp hx)
    exact (List.all_eq_true.mp h) x hx2

/-- `strings.TrimSpace(s) == ""` holds exactly for the blank strings. -/
theorem TrimSpace_eq_empty (s : String) : TrimSpace s = "" ↔ blank s = true := by
  unfold TrimSpace blank
  rw [← dropWhile_twice_nil]
  constructor
  · intro h
    have := congrArg String.data h
    simpa using this
  · intro h
    rw [h]

/-! ## Display names -/

theorem nonBlankEntry_eq (t : GoMap String String) (k : String) :
    nonBlankEntry t k = firstNonBlank [t] k := by
  unfold nonBlankEntry
  simp only [firstNonBlank]
  cases hg : t.get? k with
  | none => rfl
  | some v =>
    by_cases hb : blank v = true
    · have : TrimSpace v = "" := (TrimSpace_eq_empty v).mpr hb
      simp [hb, this]
    · have : TrimSpace v ≠ "" := fun h => hb ((TrimSpace_eq_empty v).mp h)
      simp [hb, this]

theorem firstNonBlank_cons (t : GoMap String String) (ts : List (GoMap String String))
    (k : String) :
    firstNonBlank (t :: ts) k =
      match nonBlankEntry t k with
      | some v => some v
      | none => firstNonBlank ts k := by
  rw [nonBlankEntry_eq]
  simp only [firstNonBlank]
  cases t.get? k with
  | none => rfl
  | some v => by_cases hb : blank v = true <;> simp [hb]

theorem displayName_eq (ss ps es : GoMap String String) (k : String) :
    displayName ss ps es k =
      match firstNonBlank [ss, ps, es] k with
      | some v => (v, [])
      | none => (k, [noMatchLine k]) := by
  unfold displayName
  rw [firstNonBlank_cons, firstNonBlank_cons, firstNonBlank_cons]
  cases nonBlankEntry ss k <;> cases nonBlankEntry ps k <;> cases nonBlankEntry es k <;>
    simp [firstNonBlank, noMatchLine]

theorem firstNonBlank_none_iff (ts : List (GoMap String String)) (k : String) :
    firstNonBlank ts k = none ↔ ∀ t ∈ ts, ∀ v, t.get? k = some v → blank v = true := by
  induction ts with
  | nil => simp [firstNonBlank]
  | cons t ts ih =>
    simp only [firstNonBlank, List.mem_cons, forall_eq_or_imp]
    cases hg : t.get? k with
    | none => simp [ih]
    | some v =>
      by_cases hb : blank v = true
      · simp [hb, ih]
      · simp [hb]

/-- C4: the display name is supplied by the first of the base, patch and expansion
tables, in that order, that holds a non-blank value for the name-string key, and it is
that value as stored (not trimmed); tables in which the key is missing, empty or
white space only are passed over, and the key itself is used when all three are. -/
theorem displayName_first_nonblank (ss ps es : GoMap String String) (k : String) :
    (displayName ss ps es k).1 = (firstNonBlank [ss, ps, es] k).getD k := by
  rw [displayName_eq]
  cases firstNonBlank [ss, ps, es] k <;> rfl

/-- C3, as stated, fails: with the non-blank value "A" in the base table and the
non-blank value "B" in the patch table for the same key, the resolved display name is
not the patch value. -/
theorem displayName_patch_not_chosen :
    GoMap.get? [("k", "A")] "k" = some "A" ∧ blank "A" = false ∧
    GoMap.get? [("k", "B")] "k" = some "B" ∧ blank "B" = false ∧
    (displayName [("k", "A")] [("k", "B")] [] "k").1 ≠ "B" := by
  decide

/-- C3, amended: the earlier table wins.  A key with a non-blank value in the base
table resolves to the base value, whatever the patch and expansion tables hold; a key
with no non-blank base value and a non-blank patch value resolves to the patch value,
whatever the expansion table holds. -/
theorem displayName_earlier_table_wins (ss ps es : GoMap String String) (k : String) :
    (∀ vb, ss.get? k = some vb → blank vb = false → (displayName ss ps es k).1 = vb) ∧
    (∀ vp, (∀ vb, ss.get? k = some vb → blank vb = true) →
      ps.get? k = some vp → blank vp = false → (displayName ss ps es k).1 = vp) := by
  constructor
  · intro vb hb hnb
    rw [displayName_first_nonblank]
    simp [firstNonBlank, hb, hnb]
  · intro vp hss hp hnp
    rw [displayName_first_nonblank]
    cases hb : ss.get? k with
    | none => simp [firstNonBlank, hb, hp, hnp]
    | some vb => simp [firstNonBlank, hb, hss vb hb, hp, hnp]

theorem displayName_earlier_table_wins_witness :
    (GoMap.get? [("k", "A")] "k" = some "A" ∧ blank "A" = false ∧
      (displayName [("k", "A")] [("k", "B")] [("k", "C")] "k").1 = "A") ∧
    ((∀ vb, GoMap.get? [("k", " ")] "k" = some vb → blank vb = true) ∧
      GoMap.get? [("k", "B")] "k" = some "B" ∧ blank "B" = false ∧
      (displayName [("k", " ")] [("k", "B")] [("k", "C")] "k").1 = "B") :=
  ⟨⟨by decide, by decide,
      (displayName_earlier_table_wins [("k", "A")] [("k", "B")] [("k", "C")] "k").1 "A"
        (by decide) (by decide)⟩,
   ⟨by intro vb h; have : vb = " " := by simpa [GoMap.get?] using h.symm
       subst this; decide,
    by decide, by decide,
    (displayName_earlier_table_wins [("k", " ")] [("k", "B")] [("k", "C")] "k").2 "B"
      (by intro vb h; have : vb = " " := by simpa [GoMap.get?] using h.symm
          subst this; decide)
      (by decide) (by decide)⟩⟩

/-- C5: when a monster record is attached (non-empty `NameStr`, some slot matches) and
its key has no non-blank value in any of the three tables, the entry appended to the
map's monster list carries the raw key as display name and exactly one line, the
"Could not match display name monster" diagnostic for that key, is printed; when some
table holds a non-blank value for the key, the entry is appended and nothing is
printed. -/
theorem monsterStep_diagnostic (T : Tables) (l : Record) (ml : mapLevel)
    (st : Heap × List String) (m : Record)
    (hname : m.index "NameStr" ≠ "") (hslot : slotMatch l m = true) :
    ((∀ t ∈ [T.stringString, T.patchString, T.expansionString],
        ∀ v, t.get? (m.index "NameStr") = some v → blank v = true) →
      (mkMonster T l m).1.DisplayName = m.index "NameStr" ∧
      monsterStep T l ml st m =
        (st.1.append ml.Monsters (mkMonster T l m).1,
         st.2 ++ ["Could not match display name monster " ++ m.index "NameStr" ++ "\n"])) ∧
    ((∃ t ∈ [T.stringString, T.patchString, T.expansionString],
        ∃ v, t.get? (m.index "NameStr") = some v ∧ blank v = false) →
      monsterStep T l ml st m = (st.1.append ml.Monsters (mkMonster T l m).1, st.2)) := by
  have hstep : monsterStep T l ml st m =
      (st.1.append ml.Monsters (mkMonster T l m).1, st.2 ++ (mkMonster T l m).2) := by
    simp [monsterStep, hname, hslot]
  have hnm : (mkMonster T l m).1.DisplayName =
      (displayName T.stringString T.patchString T.expansionString (m.index "NameStr")).1 := rfl
  have hout : (mkMonster T l m).2 =
      (displayName T.stringString T.patchString T.expansionString (m.index "NameStr")).2 := rfl
  constructor
  · intro hnone
    have h0 := (firstNonBlank_none_iff _ _).mpr hnone
    rw [hstep, hnm, hout, displayName_eq, h0]
    exact ⟨rfl, rfl⟩
  · intro hsome
    have h1 : firstNonBlank [T.stringString, T.patchString, T.expansionString]
        (m.index "NameStr") ≠ none := by
      intro h0
      obtain ⟨t, ht, v, hv, hb⟩ := hsome
      have := (firstNonBlank_none_iff _ _).mp h0 t ht v hv
      simp [hb] at this
    rw [hstep, hout, displayName_eq]
    cases hf : firstNonBlank [T.stringString, T.patchString, T.expansionString]
        (m.index "NameStr") with
    | none => exact absurd hf h1
    | some v => simp

/-- C10: the end-to-end scenario of the spec yields exactly one map, "Blood Moor" of
tier 1, with exactly one monster "Skeleton": fire resistance 50, the other five
resistances 0, and hit-point bounds 12, 24, 10 and 20. -/
theorem join_scenario :
    (join scenarioString [] [] scenarioMonsters scenarioMonLvl scenarioMisc
        scenarioLevels).json =
      [{ displayName := "Blood Moor", tier := 1,
         monsters := [{ DisplayName := "Skeleton", PhysRes := 0, MagicRes := 0, FireRes := 50,
                        LightningRes := 0, ColdRes := 0, PoisonRes := 0,
                        MinHpClosedBnet := 12, MaxHpClosedBnet := 24,
                        MinHpOpenBnet := 10, MaxHpOpenBnet := 20 }] }] := by
  decide

theorem monsterStep_diagnostic_witness :
    GoMap.index unnamedMonster "NameStr" ≠ "" ∧
    slotMatch [("mon3", "99")] unnamedMonster = true ∧
    (∀ t ∈ [scenarioTables.stringString, scenarioTables.patchString,
          scenarioTables.expansionString],
        ∀ v, t.get? (GoMap.index unnamedMonster "NameStr") = some v → blank v = true) ∧
    (mkMonster scenarioTables [("mon3", "99")] unnamedMonster).1.DisplayName
        = GoMap.index unnamedMonster "NameStr" ∧
    monsterStep scenarioTables [("mon3", "99")] ⟨"Blood Moor", 1, 0⟩ ([[]], [])
        unnamedMonster =
      (Heap.append [[]] 0 (mkMonster scenarioTables [("mon3", "99")] unnamedMonster).1,
       [] ++ ["Could not match display name monster "
          ++ GoMap.index unnamedMonster "NameStr" ++ "\n"]) := by
  have hnone : ∀ t ∈ [scenarioTables.stringString, scenarioTables.patchString,
      scenarioTables.expansionString],
      ∀ v, t.get? (GoMap.index unnamedMonster "NameStr") = some v → blank v = true := by
    intro t ht v hv
    have ht2 : t.get? (GoMap.index unnamedMonster "NameStr") = none := by
      simp only [List.mem_cons, List.mem_singleton, List.not_mem_nil, or_false] at ht
      rcases ht with h | h | h <;> subst h <;> decide
    rw [ht2] at hv
    cases hv
  exact ⟨by decide, by decide, hnone,
    (monsterStep_diagnostic scenarioTables [("mon3", "99")] ⟨"Blood Moor", 1, 0⟩ ([[]], [])
      unnamedMonster (by decide) (by decide)).1 hnone⟩

/-! ## Go maps -/

theorem GoMap.get?_filter_ne {κ α : Type} [DecidableEq κ] (m : GoMap κ α) (k k' : κ)
    (h : k' ≠ k) :
    GoMap.get? (m.filter (fun p => !decide (p.1 = k))) k' = GoMap.get? m k' := by
  induction m with
  | nil => rfl
  | cons p rest ih =>
    obtain ⟨a, b⟩ := p
    by_cases ha : a = k
    · subst ha
      have hne : ¬ a = k' := fun e => h e.symm
      simp [List.filter_cons, GoMap.get?, ih, hne]
    · by_cases hk : a = k'
      · subst hk
        simp [List.filter_cons, GoMap.get?, ha]
      · simp [List.filter_cons, GoMap.get?, ha, hk, ih]

theorem GoMap.get?_set_self {κ α : Type} [DecidableEq κ] (m : GoMap κ α) (k : κ) (v : α) :
    GoMap.get? (m.set k v) k = some v := by
  simp [GoMap.set, GoMap.get?]

theorem GoMap.get?_set_ne {κ α : Type} [DecidableEq κ] (m : GoMap κ α) (k k' : κ) (v : α)
    (h : k' ≠ k) : GoMap.get? (m.set k v) k' = GoMap.get? m k' := by
  have hne : ¬ k = k' := fun e => h e.symm
  simp [GoMap.set, GoMap.get?, hne]
  exact GoMap.get?_filter_ne m k k' h

/-- A loop of assignments `m[kf x] = vf x`: the last `x` with key `k` decides `m[k]`. -/
theorem GoMap.foldl_set_last {κ α β : Type} [DecidableEq κ] (kf : β → κ) (vf : β → α)
    (pre post : List β) (x : β) (m0 : GoMap κ α) (k : κ) (hx : kf x = k)
    (hpost : ∀ y ∈ post, kf y ≠ k) :
    GoMap.get? ((pre ++ x :: post).foldl (fun m y => m.set (kf y) (vf y)) m0) k
      = some (vf x) := by
  rw [List.foldl_append, List.foldl_cons]
  generalize hm : (List.foldl (fun m y => m.set (kf y) (vf y)) m0 pre).set (kf x) (vf x) = m1
  have h1 : GoMap.get? m1 k = some (vf x) := by
    rw [← hm, hx]; exact GoMap.get?_set_self _ _ _
  clear hm
  induction post generalizing m1 with
  | nil => exact h1
  | cons y ys ih =>
    rw [List.foldl_cons]
    apply ih (fun z hz => hpost z (List.mem_cons_of_mem _ hz))
    rw [GoMap.get?_set_ne _ _ _ _ (fun e => hpost y (List.mem_cons_self _ _) e.symm)]
    exact h1

/-- A loop of assignments leaves `m[k]` alone when no `x` has key `k`. -/
theorem GoMap.foldl_set_other {κ α β : Type} [DecidableEq κ] (kf : β → κ) (vf : β → α)
    (xs : List β) (m0 : GoMap κ α) (k : κ) (hxs : ∀ y ∈ xs, kf y ≠ k) :
    GoMap.get? (xs.foldl (fun m y => m.set (kf y) (vf y)) m0) k = GoMap.get? m0 k := by
  induction xs generalizing m0 with
  | nil => rfl
  | cons y ys ih =>
    rw [List.foldl_cons, ih _ (fun z hz => hxs z (List.mem_cons_of_mem _ hz))]
    exact GoMap.get?_set_ne _ _ _ _ (fun e => hxs y (List.mem_cons_self _ _) e.symm)

/-! ## Hit points -/

theorem hpFloor_eq (M B : Int) : hpFloor M B = (M * B) / 100 := by
  unfold hpFloor
  have := Rat.floor_intCast_div_natCast (M * B) 100
  simpa using this

theorem toInt64_of_range (x : Int) (h1 : -9223372036854775808 ≤ x)
    (h2 : x < 9223372036854775808) : toInt64 x = x := by
  unfold toInt64
  omega

theorem divInt_eq_floor (M B : Int) (h : floorAgrees (M * B)) :
    divInt (mulInt M B) 100 = hpFloor M B := by
  obtain ⟨h1, h2, h3⟩ := h
  rw [hpFloor_eq, mulInt, toInt64_of_range _ h1 h2, divInt]
  rcases h3 with h0 | ⟨q, hq⟩
  · exact Int.tdiv_eq_ediv h0 (by decide)
  · rw [hq, Int.mul_tdiv_cancel_left _ (by decide), Int.mul_ediv_cancel_left _ (by decide)]

theorem monsterLevels_row (pre post : List Record) (row : Record) (k : String)
    (hrow : row.index "Level" = k) (hpost : ∀ r ∈ post, r.index "Level" ≠ k) :
    GoMap.get? (groupMonsterLevelsById (pre ++ row :: post)) k
      = some [("hpClosedBnet", row.index "HP(H)"), ("hpOpenBnet", row.index "L-HP(H)")] := by
  unfold groupMonsterLevelsById
  exact GoMap.foldl_set_last (fun r : Record => r.index "Level")
    (fun r : Record => ([("hpClosedBnet", r.index "HP(H)"),
      ("hpOpenBnet", r.index "L-HP(H)")] : Record)) pre post row [] k hrow hpost

/-- C6, as stated, fails: with multiplier field "-1" and base field "1" the closed
minimum bound is 0, while floor((-1 × 1) / 100) is -1. -/
theorem hp_bound_not_floor :
    (Atoi "-1").1 = -1 ∧ (Atoi "1").1 = 1 ∧
    (mkMonster negativeTables [("MonLvl3", "3")] [("minHP", "1")]).1.MinHpClosedBnet = 0 ∧
    hpFloor (-1) 1 = -1 := by
  refine ⟨by decide, by decide, by decide, ?_⟩
  rw [hpFloor_eq]
  decide

/-- C6, amended: with `row` the last level-multiplier record whose `Level` equals the
level record's `MonLvl3`, `M` and `L` the integers read from its `HP(H)` and `L-HP(H)`
fields and `lo`, `hi` those read from the monster's `minHP` and `maxHP`, each of the four
hit-point bounds is the quotient, truncated toward zero, of the 64-bit product by 100;
it equals floor((M × B) / 100) whenever the product lies in `[-2^63, 2^63)` and is
non-negative or a multiple of 100. -/
theorem hp_bounds (T : Tables) (l m : Record) (pre post : List Record) (row : Record)
    (hT : T.monsterLevels = groupMonsterLevelsById (pre ++ row :: post))
    (hrow : row.index "Level" = l.index "MonLvl3")
    (hpost : ∀ r ∈ post, r.index "Level" ≠ l.index "MonLvl3") :
    let M := (Atoi (row.index "HP(H)")).1
    let L := (Atoi (row.index "L-HP(H)")).1
    let lo := (Atoi (m.index "minHP")).1
    let hi := (Atoi (m.index "maxHP")).1
    let mon := (mkMonster T l m).1
    (mon.MinHpClosedBnet = Int.tdiv (toInt64 (M * lo)) 100 ∧
     mon.MaxHpClosedBnet = Int.tdiv (toInt64 (M * hi)) 100 ∧
     mon.MinHpOpenBnet = Int.tdiv (toInt64 (L * lo)) 100 ∧
     mon.MaxHpOpenBnet = Int.tdiv (toInt64 (L * hi)) 100) ∧
    (floorAgrees (M * lo) → mon.MinHpClosedBnet = hpFloor M lo) ∧
    (floorAgrees (M * hi) → mon.MaxHpClosedBnet = hpFloor M hi) ∧
    (floorAgrees (L * lo) → mon.MinHpOpenBnet = hpFloor L lo) ∧
    (floorAgrees (L * hi) → mon.MaxHpOpenBnet = hpFloor L hi) := by
  intro M L lo hi mon
  have hg := monsterLevels_row pre post row (l.index "MonLvl3") hrow hpost
  rw [← hT] at hg
  have e1 : mon.MinHpClosedBnet = divInt (mulInt M lo) 100 := by
    simp only [mon, mkMonster, hg]; rfl
  have e2 : mon.MaxHpClosedBnet = divInt (mulInt M hi) 100 := by
    simp only [mon, mkMonster, hg]; rfl
  have e3 : mon.MinHpOpenBnet = divInt (mulInt L lo) 100 := by
    simp only [mon, mkMonster, hg]; rfl
  have e4 : mon.MaxHpOpenBnet = divInt (mulInt L hi) 100 := by
    simp only [mon, mkMonster, hg]; rfl
  refine ⟨⟨e1, e2, e3, e4⟩, ?_, ?_, ?_, ?_⟩
  · intro h; rw [e1]; exact divInt_eq_floor _ _ h
  · intro h; rw [e2]; exact divInt_eq_floor _ _ h
  · intro h; rw [e3]; exact divInt_eq_floor _ _ h
  · intro h; rw [e4]; exact divInt_eq_floor _ _ h

theorem hp_bounds_witness :
    scenarioTables.monsterLevels
      = groupMonsterLevelsById ([] ++ [("Level", "3"), ("HP(H)", "150"), ("L-HP(H)", "100")]
          :: scenarioMonLvl) ∧
    (mkMonster scenarioTables [("MonLvl3", "3")] [("minHP", "7"), ("maxHP", "20")]).1.MinHpClosedBnet
      = hpFloor 120 7 ∧
    hpFloor 150 7 = 10 := by
  refine ⟨by decide, ?_, by rw [hpFloor_eq]; decide⟩
  have h := hp_bounds scenarioTables [("MonLvl3", "3")] [("minHP", "7"), ("maxHP", "20")]
    [[("Level", "3"), ("HP(H)", "150"), ("L-HP(H)", "100")]] []
    [("Level", "3"), ("HP(H)", "120"), ("L-HP(H)", "100")] (by decide) (by decide)
    (by intro r hr; cases hr)
  have h2 := h.2.1 (by refine ⟨by decide, by decide, Or.inl (by decide)⟩)
  have e : (Atoi (GoMap.index [("Level", "3"), ("HP(H)", "120"), ("L-HP(H)", "100")]
      "HP(H)")).1 = 120 := by decide
  have e2 : (Atoi (GoMap.index [("minHP", "7"), ("maxHP", "20")] "minHP")).1 = 7 := by decide
  rw [e, e2] at h2
  exact h2

/-! ## Maps from the misc records -/

theorem mapTiers_get? (t : String) :
    mapTiers.get? t =
      if t ∈ ["t1m", "t2m", "t3m", "t4m", "t5m"] then some (tierDigit t) else none := by
  by_cases h1 : t = "t1m"
  · subst h1; decide
  by_cases h2 : t = "t2m"
  · subst h2; decide
  by_cases h3 : t = "t3m"
  · subst h3; decide
  by_cases h4 : t = "t4m"
  · subst h4; decide
  by_cases h5 : t = "t5m"
  · subst h5; decide
  have g1 : ¬ "t1m" = t := fun e => h1 e.symm
  have g2 : ¬ "t2m" = t := fun e => h2 e.symm
  have g3 : ¬ "t3m" = t := fun e => h3 e.symm
  have g4 : ¬ "t4m" = t := fun e => h4 e.symm
  have g5 : ¬ "t5m" = t := fun e => h5 e.symm
  simp [mapTiers, GoMap.get?, h1, h2, h3, h4, h5, g1, g2, g3, g4, g5]

theorem tierDigit_range (t : String) (h : t ∈ ["t1m", "t2m", "t3m", "t4m", "t5m"]) :
    1 ≤ tierDigit t ∧ tierDigit t ≤ 5 ∧ t = "t" ++ toString (tierDigit t) ++ "m" := by
  simp only [List.mem_cons, List.mem_singleton, List.not_mem_nil, or_false] at h
  rcases h with h | h | h | h | h <;> subst h <;> decide

/-- The loop body of `getMapsFromMisc` in terms of `qualifies`. -/
theorem getMapsFromMiscStep_eq (st : GoMap String mapLevel × Heap) (item : Record) :
    getMapsFromMiscStep st item =
      if qualifies item = true then
        (st.1.set (item.index "len")
            { DisplayName := item.index "*name", Tier := tierDigit (item.index "type"),
              Monsters := st.2.length },
          st.2 ++ [[]])
      else st := by
  unfold getMapsFromMiscStep qualifies
  simp only [mapTiers_get?]
  by_cases hm : item.index "type" ∈ ["t1m", "t2m", "t3m", "t4m", "t5m"]
  · by_cases hs : item.index "spawnable" = "1" ∨ item.index "type" = "t5m"
    · have hs2 : (decide (item.index "spawnable" = "1") ||
          decide (item.index "type" = "t5m")) = true := by simpa using hs
      simp only [if_pos hm, if_pos hs, decide_eq_true hm, hs2, Bool.and_self, if_true]
    · have hs2 : (decide (item.index "spawnable" = "1") ||
          decide (item.index "type" = "t5m")) = false := by simpa using hs
      simp only [if_pos hm, if_neg hs, hs2, Bool.and_false]
      rfl
  · simp only [if_neg hm, decide_eq_false hm, Bool.false_and]
    rfl

theorem getMapsFromMisc_isSome (misc : List Record) (st : GoMap String mapLevel × Heap)
    (k : String) :
    ((misc.foldl getMapsFromMiscStep st).1.get? k).isSome = true ↔
      (st.1.get? k).isSome = true ∨
        ∃ item ∈ misc, item.index "len" = k ∧ qualifies item = true := by
  induction misc generalizing st with
  | nil => simp
  | cons item rest ih =>
    rw [List.foldl_cons, ih, getMapsFromMiscStep_eq]
    by_cases hq : qualifies item = true
    · rw [if_pos hq]
      by_cases hk : item.index "len" = k
      · subst hk
        simp [GoMap.get?_set_self, hq]
      · have hk2 : k ≠ item.index "len" := fun e => hk e.symm
        simp [GoMap.get?_set_ne _ _ _ _ hk2, hk]
    · rw [if_neg hq]
      simp [hq]

theorem getMapsFromMisc_keep (post : List Record) (st : GoMap String mapLevel × Heap)
    (k : String) (hpost : ∀ x ∈ post, qualifies x = true → x.index "len" ≠ k) :
    (post.foldl getMapsFromMiscStep st).1.get? k = st.1.get? k := by
  induction post generalizing st with
  | nil => rfl
  | cons item rest ih =>
    rw [List.foldl_cons, ih _ (fun x hx => hpost x (List.mem_cons_of_mem _ hx)),
      getMapsFromMiscStep_eq]
    by_cases hq : qualifies item = true
    · rw [if_pos hq]
      exact GoMap.get?_set_ne _ _ _ _
        (fun e => hpost item (List.mem_cons_self _ _) hq e.symm)
    · rw [if_neg hq]

theorem getMapsFromMisc_heap (misc : List Record) (st : GoMap String mapLevel × Heap) :
    ∀ x ∈ (misc.foldl getMapsFromMiscStep st).2, x ∈ st.2 ∨ x = [] := by
  induction misc generalizing st with
  | nil => intro x hx; exact Or.inl hx
  | cons item rest ih =>
    intro x hx
    rw [List.foldl_cons] at hx
    rcases ih _ x hx with h | h
    · rw [getMapsFromMiscStep_eq] at h
      by_cases hq : qualifies item = true
      · rw [if_pos hq] at h
        simp only [List.mem_append, List.mem_singleton] at h
        exact h
      · rw [if_neg hq] at h
        exact Or.inl h
    · exact Or.inr h

theorem Heap.deref_of_all_nil (h : Heap) (p : Nat) (hall : ∀ x ∈ h, x = []) :
    h.deref p = [] := by
  unfold Heap.deref
  by_cases hp : p < h.length
  · rw [List.getD_eq_getElem _ _ hp]
    exact hall _ (List.getElem_mem hp)
  · rw [List.getD_eq_default _ _ (by omega)]

/-- C7: the mapping returned by `getMapsFromMisc` contains the level identifier `k`
exactly when some misc record has `len = k`, a type among `t1m` .. `t5m`, and
`spawnable = "1"` or type `t5m`; a `t5m` record with `spawnable = "0"` is included and a
`t1m` record with `spawnable = "0"` is not.  For the last qualifying record with a given
`len` the entry carries that record's `*name`, the tier number 1..5 that is the digit of
its type code, and an empty monster list. -/
theorem getMapsFromMisc_spec (misc : List Record) :
    (∀ k, ((getMapsFromMisc misc).1.get? k).isSome = true ↔
      ∃ item ∈ misc, item.index "len" = k ∧
        item.index "type" ∈ ["t1m", "t2m", "t3m", "t4m", "t5m"] ∧
        (item.index "spawnable" = "1" ∨ item.index "type" = "t5m")) ∧
    (∀ pre item post, misc = pre ++ item :: post → qualifies item = true →
      (∀ x ∈ post, qualifies x = true → x.index "len" ≠ item.index "len") →
      ∃ ml, (getMapsFromMisc misc).1.get? (item.index "len") = some ml ∧
        ml.DisplayName = item.index "*name" ∧
        1 ≤ ml.Tier ∧ ml.Tier ≤ 5 ∧
        item.index "type" = "t" ++ toString ml.Tier ++ "m" ∧
        (getMapsFromMisc misc).2.deref ml.Monsters = []) ∧
    ((getMapsFromMisc [[("type", "t5m"), ("spawnable", "0"), ("len", "7")]]).1.get? "7"
        = some { DisplayName := "", Tier := 5, Monsters := 0 } ∧
      (getMapsFromMisc [[("type", "t1m"), ("spawnable", "0"), ("len", "7")]]).1.get? "7"
        = none) := by
  refine ⟨?_, ?_, by decide⟩
  · intro k
    unfold getMapsFromMisc getMapsFromMiscOn
    rw [getMapsFromMisc_isSome]
    simp [GoMap.get?, qualifies]
  · intro pre item post hmisc hq hpost
    have hall : ∀ x ∈ (getMapsFromMisc misc).2, x = [] := by
      intro x hx
      unfold getMapsFromMisc getMapsFromMiscOn at hx
      rcases getMapsFromMisc_heap misc _ x hx with h | h
      · simp at h
      · exact h
    have hmem : item.index "type" ∈ ["t1m", "t2m", "t3m", "t4m", "t5m"] := by
      unfold qualifies at hq
      simp only [Bool.and_eq_true, decide_eq_true_eq] at hq
      exact hq.1
    obtain ⟨t1, t2, t3⟩ := tierDigit_range _ hmem
    refine ⟨{ DisplayName := item.index "*name", Tier := tierDigit (item.index "type"),
              Monsters := (pre.foldl getMapsFromMiscStep ([], [])).2.length }, ?_, rfl,
            t1, t2, t3, Heap.deref_of_all_nil _ _ hall⟩
    unfold getMapsFromMisc getMapsFromMiscOn
    rw [hmisc, List.foldl_append, List.foldl_cons, getMapsFromMisc_keep _ _ _ hpost,
      getMapsFromMiscStep_eq, if_pos hq]
    exact GoMap.get?_set_self _ _ _

theorem getMapsFromMisc_spec_witness :
    scenarioMisc = [] ++ [("type", "t1m"), ("spawnable", "1"), ("len", "5"),
        ("*name", "Blood Moor")] :: [] ∧
    qualifies [("type", "t1m"), ("spawnable", "1"), ("len", "5"), ("*name", "Blood Moor")]
      = true ∧
    ∃ ml, (getMapsFromMisc scenarioMisc).1.get? "5" = some ml ∧
      ml.DisplayName = "Blood Moor" ∧ 1 ≤ ml.Tier ∧ ml.Tier ≤ 5 ∧
      "t1m" = "t" ++ toString ml.Tier ++ "m" ∧
      (getMapsFromMisc scenarioMisc).2.deref ml.Monsters = [] :=
  ⟨rfl, by decide,
   (getMapsFromMisc_spec scenarioMisc).2.1 []
     [("type", "t1m"), ("spawnable", "1"), ("len", "5"), ("*name", "Blood Moor")] []
     rfl (by decide) (by intro x hx; cases hx)⟩

/-! ## The heap of monster slices -/

theorem Heap.length_append (h : Heap) (p : Nat) (x : monster) :
    (h.append p x).length = h.length := by
  simp [Heap.append]

theorem Heap.deref_append_self (h : Heap) (p : Nat) (x : monster) (hp : p < h.length) :
    (h.append p x).deref p = h.deref p ++ [x] := by
  simp [Heap.append, Heap.deref, List.getD_eq_getElem?_getD, List.getElem?_set, hp]

theorem Heap.deref_append_ne (h : Heap) (p q : Nat) (x : monster) (hq : q ≠ p) :
    (h.append p x).deref q = h.deref q := by
  have hq2 : ¬ p = q := fun e => hq e.symm
  simp [Heap.append, Heap.deref, List.getD_eq_getElem?_getD, List.getElem?_set, hq2]

/-! ## The loops of `main` -/

theorem slotMatch_eq (l m : Record) :
    slotMatch l m = slotNames.any (fun s => decide (l.index s = m.index "Id")) := by
  simp [slotMatch, slotNames, List.any, Bool.or_assoc]

theorem monsterStep_eq (T : Tables) (l : Record) (ml : mapLevel) (st : Heap × List String)
    (m : Record) :
    monsterStep T l ml st m =
      if attaches l m = true then
        (st.1.append ml.Monsters (mkMonster T l m).1, st.2 ++ (mkMonster T l m).2)
      else st := by
  unfold monsterStep attaches
  rw [← slotMatch_eq]
  by_cases hn : m.index "NameStr" = ""
  · simp [hn]
  · by_cases hs : slotMatch l m = true
    · simp [hn, hs]
    · simp [hn, hs]

theorem monsters_foldl_heap (T : Tables) (l : Record) (ml : mapLevel) (monsters : List Record)
    (st : Heap × List String) (hp : ml.Monsters < st.1.length) :
    (monsters.foldl (monsterStep T l ml) st).1.length = st.1.length ∧
    (monsters.foldl (monsterStep T l ml) st).1.deref ml.Monsters
      = st.1.deref ml.Monsters ++ attachedMonsters T l monsters ∧
    ∀ q, q ≠ ml.Monsters →
      (monsters.foldl (monsterStep T l ml) st).1.deref q = st.1.deref q := by
  induction monsters generalizing st with
  | nil => simp [attachedMonsters, attachedRecords]
  | cons m rest ih =>
    rw [List.foldl_cons, monsterStep_eq]
    by_cases ha : attaches l m = true
    · rw [if_pos ha]
      have hp2 : ml.Monsters < (st.1.append ml.Monsters (mkMonster T l m).1,
          st.2 ++ (mkMonster T l m).2).1.length := by
        simpa [Heap.length_append] using hp
      obtain ⟨i1, i2, i3⟩ := ih _ hp2
      refine ⟨?_, ?_, ?_⟩
      · rw [i1]; exact Heap.length_append _ _ _
      · rw [i2]
        simp [attachedMonsters, attachedRecords, List.filter_cons, ha,
          Heap.deref_append_self _ _ _ hp]
      · intro q hq
        rw [i3 q hq]
        exact Heap.deref_append_ne _ _ _ _ hq
    · rw [if_neg ha]
      obtain ⟨i1, i2, i3⟩ := ih _ hp
      refine ⟨i1, ?_, i3⟩
      rw [i2]
      simp [attachedMonsters, attachedRecords, List.filter_cons, ha]

/-- What one level record adds to the slice at address `q`. -/
theorem levels_foldl (T : Tables) (mp : GoMap String mapLevel) (monsters levels : List Record)
    (st : JoinState) (hptr : ∀ k ml, mp.get? k = some ml → ml.Monsters < st.heap.length) :
    (levels.foldl (levelStep T mp monsters) st).output
      = st.output ++ levels.filterMap (fun l => mp.get? (l.index "Id")) ∧
    (levels.foldl (levelStep T mp monsters) st).heap.length = st.heap.length ∧
    ∀ q, (levels.foldl (levelStep T mp monsters) st).heap.deref q
      = st.heap.deref q ++ levels.flatMap (fun l =>
          match mp.get? (l.index "Id") with
          | some ml => if ml.Monsters = q then attachedMonsters T l monsters else []
          | none => []) := by
  induction levels generalizing st with
  | nil => simp
  | cons l rest ih =>
    rw [List.foldl_cons]
    cases hg : mp.get? (l.index "Id") with
    | none =>
      have hs : levelStep T mp monsters st l = st := by simp [levelStep, hg]
      rw [hs]
      obtain ⟨i1, i2, i3⟩ := ih st hptr
      refine ⟨?_, i2, ?_⟩
      · rw [i1]; simp [List.filterMap_cons, hg]
      · intro q; rw [i3 q]; simp [List.flatMap_cons, hg]
    | some ml =>
      have hp : ml.Monsters < st.heap.length := hptr _ _ hg
      obtain ⟨m1, m2, m3⟩ := monsters_foldl_heap T l ml monsters
        (st.heap, st.stdout ++ ["Found map " ++ l.index "Name" ++ " " ++ ml.DisplayName ++ "\n"])
        hp
      have hs : levelStep T mp monsters st l =
          { heap := (monsters.foldl (monsterStep T l ml) (st.heap,
                st.stdout ++ ["Found map " ++ l.index "Name" ++ " " ++ ml.DisplayName ++ "\n"])).1,
            stdout := (monsters.foldl (monsterStep T l ml) (st.heap,
                st.stdout ++ ["Found map " ++ l.index "Name" ++ " " ++ ml.DisplayName ++ "\n"])).2,
            output := st.output ++ [ml] } := by
        simp [levelStep, hg]
      rw [hs]
      generalize monsters.foldl (monsterStep T l ml) (st.heap,
        st.stdout ++ ["Found map " ++ l.index "Name" ++ " " ++ ml.DisplayName ++ "\n"]) = r
        at m1 m2 m3 ⊢
      have hptr2 : ∀ k ml', mp.get? k = some ml' → ml'.Monsters < r.1.length := by
        intro k ml' h
        rw [m1]
        exact hptr k ml' h
      obtain ⟨i1, i2, i3⟩ := ih { heap := r.1, stdout := r.2, output := st.output ++ [ml] } hptr2
      refine ⟨?_, ?_, ?_⟩
      · rw [i1]; simp [List.filterMap_cons, hg]
      · rw [i2]; exact m1
      · intro q
        rw [i3 q]
        simp only [List.flatMap_cons, hg]
        by_cases hq : ml.Monsters = q
        · subst hq
          rw [m2]
          simp
        · rw [m3 q (fun e => hq e.symm)]
          simp [hq]

theorem GoMap.get?_set {κ α : Type} [DecidableEq κ] (m : GoMap κ α) (k k' : κ) (v : α) :
    GoMap.get? (m.set k v) k' = if k' = k then some v else GoMap.get? m k' := by
  by_cases h : k' = k
  · subst h; rw [if_pos rfl]; exact GoMap.get?_set_self _ _ _
  · rw [if_neg h]; exact GoMap.get?_set_ne _ _ _ _ h

theorem getMapsFromMisc_ptrOK (misc : List Record) (st : GoMap String mapLevel × Heap)
    (h : PtrOK st.1 st.2) :
    PtrOK (misc.foldl getMapsFromMiscStep st).1 (misc.foldl getMapsFromMiscStep st).2 := by
  induction misc generalizing st with
  | nil => exact h
  | cons item rest ih =>
    rw [List.foldl_cons]
    apply ih
    rw [getMapsFromMiscStep_eq]
    by_cases hq : qualifies item = true
    · rw [if_pos hq]
      obtain ⟨h1, h2⟩ := h
      constructor
      · intro k ml hk
        rw [GoMap.get?_set] at hk
        simp only [List.length_append, List.length_singleton]
        by_cases e : k = item.index "len"
        · rw [if_pos e] at hk
          cases hk
          exact Nat.lt_succ_self _
        · rw [if_neg e] at hk
          exact Nat.lt_succ_of_lt (h1 k ml hk)
      · intro k k' ml ml' hk hk' hp
        rw [GoMap.get?_set] at hk hk'
        by_cases e : k = item.index "len" <;> by_cases e' : k' = item.index "len"
        · rw [e, e']
        · rw [if_pos e] at hk
          rw [if_neg e'] at hk'
          cases hk
          have := h1 k' ml' hk'
          simp only at hp
          omega
        · rw [if_neg e] at hk
          rw [if_pos e'] at hk'
          cases hk'
          have := h1 k ml hk
          simp only at hp
          omega
        · rw [if_neg e] at hk
          rw [if_neg e'] at hk'
          exact h2 k k' ml ml' hk hk' hp
    · rw [if_neg hq]
      exact h

theorem getMapsFromMisc_ptrOK_nil (misc : List Record) :
    PtrOK (getMapsFromMisc misc).1 (getMapsFromMisc misc).2 := by
  unfold getMapsFromMisc getMapsFromMiscOn
  apply getMapsFromMisc_ptrOK
  constructor
  · intro k ml hk; simp [GoMap.get?] at hk
  · intro k k' ml ml' hk; simp [GoMap.get?] at hk

theorem getMapsFromMisc_heap_nil (misc : List Record) :
    ∀ x ∈ (getMapsFromMisc misc).2, x = [] := by
  intro x hx
  unfold getMapsFromMisc getMapsFromMiscOn at hx
  rcases getMapsFromMisc_heap misc _ x hx with h | h
  · simp at h
  · exact h

/-- The array written by `main`, in closed form: one object per level record whose `Id`
is a key of the map of maps, in level order; its monster list collects, in level order,
the attached monsters of every level record that carries the same `Id`. -/
theorem join_json_eq (ss ps es : GoMap String String)
    (monsters rows misc levels : List Record) :
    (join ss ps es monsters rows misc levels).json =
      levels.filterMap (fun l =>
        ((getMapsFromMisc misc).1.get? (l.index "Id")).map (fun ml =>
          { displayName := ml.DisplayName, tier := ml.Tier,
            monsters := levels.flatMap (fun l' =>
              if l'.index "Id" = l.index "Id" then
                attachedMonsters (joinTables ss ps es rows) l' monsters
              else []) })) := by
  obtain ⟨p1, p2⟩ := getMapsFromMisc_ptrOK_nil misc
  have hnil := getMapsFromMisc_heap_nil misc
  obtain ⟨o1, _, o3⟩ := levels_foldl (joinTables ss ps es rows) (getMapsFromMisc misc).1
    monsters levels { heap := (getMapsFromMisc misc).2, stdout := [], output := [] } p1
  have hj : join ss ps es monsters rows misc levels =
      levels.foldl (levelStep (joinTables ss ps es rows) (getMapsFromMisc misc).1 monsters)
        { heap := (getMapsFromMisc misc).2, stdout := [], output := [] } := rfl
  rw [← hj] at o1 o3
  unfold JoinState.json
  rw [o1]
  simp only [List.nil_append, List.map_filterMap]
  congr 1
  funext l
  cases hg : (getMapsFromMisc misc).1.get? (l.index "Id") with
  | none => rfl
  | some ml =>
    simp only [Option.map_some']
    congr 2
    rw [o3, Heap.deref_of_all_nil _ _ hnil, List.nil_append]
    congr 1
    funext l'
    by_cases e : l'.index "Id" = l.index "Id"
    · rw [if_pos e, e, hg]
      simp
    · rw [if_neg e]
      cases hg' : (getMapsFromMisc misc).1.get? (l'.index "Id") with
      | none => rfl
      | some ml' =>
        have hne : ¬ ml'.Monsters = ml.Monsters := fun hp => e (p2 _ _ _ _ hg' hg hp)
        simp [hne]

theorem List.length_filterMap_map' {α β γ : Type} (h : α → Option β) (f : α → β → γ)
    (l : List α) :
    (l.filterMap (fun x => (h x).map (f x))).length = (l.filterMap h).length := by
  induction l with
  | nil => rfl
  | cons x xs ih =>
    simp only [List.filterMap_cons]
    cases h x with
    | none => simpa using ih
    | some b => simpa using ih

theorem List.flatMap_eq_nil_of {α β : Type} (l : List α) (f : α → List β)
    (h : ∀ x ∈ l, f x = []) : l.flatMap f = [] := by
  induction l with
  | nil => rfl
  | cons x xs ih =>
    rw [List.flatMap_cons, h x (List.mem_cons_self _ _),
      ih (fun y hy => h y (List.mem_cons_of_mem _ hy))]
    rfl

theorem List.filterMap_map_eq_filter_map {α β γ : Type} (l : List α) (h : α → Option β)
    (F G : α → γ) (hFG : ∀ x ∈ l, (h x).isSome = true → F x = G x) :
    l.filterMap (fun x => (h x).map (fun _ => F x))
      = (l.filter (fun x => (h x).isSome)).map G := by
  induction l with
  | nil => rfl
  | cons x xs ih =>
    have ih2 := ih (fun y hy => hFG y (List.mem_cons_of_mem _ hy))
    simp only [List.filterMap_cons, List.filter_cons]
    cases hx : h x with
    | none => simpa using ih2
    | some b =>
      have := hFG x (List.mem_cons_self _ _) (by simp [hx])
      simp [this, ih2]

/-- Among records whose qualifying ones have pairwise distinct keys, collecting over the
records with the key of `l` collects from `l` alone. -/
theorem List.flatMap_same_key {α β κ : Type} [DecidableEq κ] (L : List α) (kf : α → κ)
    (q : α → Bool) (g : α → List β) (l : α) (hl : l ∈ L)
    (hqk : ∀ x, kf x = kf l → q x = true)
    (hd : ((L.filter q).map kf).Nodup) :
    L.flatMap (fun x => if kf x = kf l then g x else []) = g l := by
  induction L with
  | nil => cases hl
  | cons x xs ih =>
    rw [List.flatMap_cons]
    by_cases e : kf x = kf l
    · have hqx : q x = true := hqk x e
      rw [List.filter_cons, if_pos hqx, List.map_cons, List.nodup_cons] at hd
      have hno : ∀ y ∈ xs, kf y ≠ kf l := by
        intro y hy ey
        apply hd.1
        rw [e, ← ey]
        exact List.mem_map_of_mem kf (List.mem_filter.mpr ⟨hy, hqk y ey⟩)
      have hxl : x = l := by
        rcases List.mem_cons.mp hl with h | h
        · exact h.symm
        · exact absurd rfl (hno l h)
      rw [if_pos e, hxl, List.flatMap_eq_nil_of xs _ (fun y hy => by rw [if_neg (hno y hy)])]
      simp
    · have hl2 : l ∈ xs := by
        rcases List.mem_cons.mp hl with h | h
        · exact absurd (by rw [h]) e
        · exact h
      have hd2 : ((xs.filter q).map kf).Nodup := by
        rw [List.filter_cons] at hd
        by_cases hqx : q x = true
        · rw [if_pos hqx, List.map_cons, List.nodup_cons] at hd
          exact hd.2
        · rw [if_neg hqx] at hd
          exact hd
      rw [if_neg e, ih hl2 hd2]
      simp

/-- C8, as stated, fails in its last part: of two level records with the same `Id`, the
second has no attached monster record, yet its output entry does not carry an empty
monster list; it carries the monster attached through the first record. -/
theorem join_unmatched_entry_not_empty :
    halfMatchedLevels.map (fun l => (attachedRecords l scenarioMonsters).length) = [1, 0] ∧
    (join scenarioString [] [] scenarioMonsters scenarioMonLvl scenarioMisc
        halfMatchedLevels).json.map (fun j => j.monsters.map (fun x => x.DisplayName))
      = [["Skeleton"], ["Skeleton"]] := by
  decide

/-- C8, amended: the output has exactly one entry per level record whose `Id` is a key of
the `getMapsFromMisc` mapping, in the order of the level records, each with that map's
display name and tier; level records without a qualifying misc record add nothing; and
a qualifying level record is emitted also when no monster is attached to it, with an
empty monster list when no level record of that `Id` has an attached monster. -/
theorem join_output_entries (ss ps es : GoMap String String)
    (monsters rows misc levels : List Record) :
    ((join ss ps es monsters rows misc levels).json.map (fun j => (j.displayName, j.tier))
      = (levels.filterMap (fun l => (getMapsFromMisc misc).1.get? (l.index "Id"))).map
          (fun ml => (ml.DisplayName, ml.Tier))) ∧
    (∀ pre l post ml, levels = pre ++ l :: post →
      (getMapsFromMisc misc).1.get? (l.index "Id") = some ml →
      (∀ x ∈ levels, x.index "Id" = l.index "Id" → attachedRecords x monsters = []) →
      ∃ A B, (join ss ps es monsters rows misc levels).json
          = A ++ { displayName := ml.DisplayName, tier := ml.Tier, monsters := [] } :: B ∧
        A.length
          = (pre.filterMap (fun x => (getMapsFromMisc misc).1.get? (x.index "Id"))).length) := by
  constructor
  · rw [join_json_eq, List.map_filterMap, List.map_filterMap]
    congr 1
    funext l
    cases (getMapsFromMisc misc).1.get? (l.index "Id") <;> rfl
  · intro pre l post ml hlev hg hnone
    rw [join_json_eq]
    have hm : levels.flatMap (fun l' =>
        if l'.index "Id" = l.index "Id" then
          attachedMonsters (joinTables ss ps es rows) l' monsters
        else []) = [] := by
      apply List.flatMap_eq_nil_of
      intro x hx
      by_cases e : x.index "Id" = l.index "Id"
      · rw [if_pos e]
        simp [attachedMonsters, hnone x hx e]
      · rw [if_neg e]
    generalize hG : (fun l : Record =>
        ((getMapsFromMisc misc).1.get? (l.index "Id")).map (fun ml =>
          ({ displayName := ml.DisplayName, tier := ml.Tier,
             monsters := levels.flatMap (fun l' =>
              if l'.index "Id" = l.index "Id" then
                attachedMonsters (joinTables ss ps es rows) l' monsters
              else []) } : mapLevelJson))) = G
    have hGl : G l = some { displayName := ml.DisplayName, tier := ml.Tier, monsters := [] } := by
      rw [← hG]
      simp only [hg, Option.map_some', hm]
    refine ⟨pre.filterMap G, post.filterMap G, ?_, ?_⟩
    · rw [hlev, List.filterMap_append, List.filterMap_cons, hGl]
    · rw [← hG]
      exact List.length_filterMap_map' _ _ _

/-- C9: when the level records that qualify as maps have pairwise distinct `Id`s, the
monster list of each output map is built from exactly the attached monster records of
its level record, in monster-file order: the records with a non-empty `NameStr` whose
`Id` equals the value of one of `mon1` .. `mon15`. -/
theorem join_monsters_of_distinct_ids (ss ps es : GoMap String String)
    (monsters rows misc levels : List Record)
    (hd : ((levels.filter (fun l =>
        ((getMapsFromMisc misc).1.get? (l.index "Id")).isSome)).map
          (fun l => l.index "Id")).Nodup) :
    (join ss ps es monsters rows misc levels).json.map (fun j => j.monsters)
      = (levels.filter (fun l => ((getMapsFromMisc misc).1.get? (l.index "Id")).isSome)).map
          (fun l => (attachedRecords l monsters).map
            (fun m => (mkMonster (joinTables ss ps es rows) l m).1)) := by
  rw [join_json_eq, List.map_filterMap]
  have hf : (fun l : Record =>
      Option.map (fun j : mapLevelJson => j.monsters)
        (((getMapsFromMisc misc).1.get? (l.index "Id")).map (fun ml =>
          ({ displayName := ml.DisplayName, tier := ml.Tier,
             monsters := levels.flatMap (fun l' =>
              if l'.index "Id" = l.index "Id" then
                attachedMonsters (joinTables ss ps es rows) l' monsters
              else []) } : mapLevelJson))))
      = (fun l : Record => ((getMapsFromMisc misc).1.get? (l.index "Id")).map (fun _ =>
          levels.flatMap (fun l' =>
              if l'.index "Id" = l.index "Id" then
                attachedMonsters (joinTables ss ps es rows) l' monsters
              else []))) := by
    funext l
    cases (getMapsFromMisc misc).1.get? (l.index "Id") <;> rfl
  rw [hf]
  apply List.filterMap_map_eq_filter_map
  intro l hl hq
  exact List.flatMap_same_key levels (fun l => l.index "Id")
    (fun l => ((getMapsFromMisc misc).1.get? (l.index "Id")).isSome)
    (fun l' => attachedMonsters (joinTables ss ps es rows) l' monsters) l hl
    (fun x ex => by simp only at ex ⊢; rw [ex]; exact hq) hd

theorem join_output_entries_witness :
    twoMapLevels = [[("Id", "5"), ("Name", "lvl5"), ("mon1", "99"), ("MonLvl3", "3")],
        [("Id", "7"), ("Name", "town"), ("mon1", "99")]]
      ++ [("Id", "6"), ("Name", "lvl6"), ("mon1", "12"), ("MonLvl3", "3")] :: [] ∧
    (getMapsFromMisc twoMapMisc).1.get?
        (GoMap.index [("Id", "6"), ("Name", "lvl6"), ("mon1", "12"), ("MonLvl3", "3")] "Id")
      = some { DisplayName := "Den", Tier := 5, Monsters := 1 } ∧
    (∀ x ∈ twoMapLevels,
      x.index "Id"
        = GoMap.index [("Id", "6"), ("Name", "lvl6"), ("mon1", "12"), ("MonLvl3", "3")] "Id" →
      attachedRecords x scenarioMonsters = []) ∧
    (join scenarioString [] [] scenarioMonsters scenarioMonLvl twoMapMisc
        twoMapLevels).json.map (fun j => (j.displayName, j.tier))
      = [("Blood Moor", 1), ("Den", 5)] ∧
    ∃ A B, (join scenarioString [] [] scenarioMonsters scenarioMonLvl twoMapMisc
          twoMapLevels).json
        = A ++ { displayName := "Den", tier := 5, monsters := [] } :: B ∧
      A.length = (([[("Id", "5"), ("Name", "lvl5"), ("mon1", "99"), ("MonLvl3", "3")],
          [("Id", "7"), ("Name", "town"), ("mon1", "99")]] : List Record).filterMap
        (fun x => (getMapsFromMisc twoMapMisc).1.get? (x.index "Id"))).length := by
  have hnone : ∀ x ∈ twoMapLevels,
      x.index "Id"
        = GoMap.index [("Id", "6"), ("Name", "lvl6"), ("mon1", "12"), ("MonLvl3", "3")] "Id" →
      attachedRecords x scenarioMonsters = [] := by
    intro x hx
    simp only [twoMapLevels, List.mem_cons, List.mem_singleton, List.not_mem_nil,
      or_false] at hx
    rcases hx with h | h | h <;> subst h <;> decide
  exact ⟨rfl, by decide, hnone,
    (join_output_entries scenarioString [] [] scenarioMonsters scenarioMonLvl twoMapMisc
      twoMapLevels).1.trans (by decide),
    (join_output_entries scenarioString [] [] scenarioMonsters scenarioMonLvl twoMapMisc
      twoMapLevels).2
      [[("Id", "5"), ("Name", "lvl5"), ("mon1", "99"), ("MonLvl3", "3")],
        [("Id", "7"), ("Name", "town"), ("mon1", "99")]]
      [("Id", "6"), ("Name", "lvl6"), ("mon1", "12"), ("MonLvl3", "3")] []
      { DisplayName := "Den", Tier := 5, Monsters := 1 } rfl (by decide) hnone⟩

theorem join_monsters_of_distinct_ids_witness :
    ((scenarioLevels.filter (fun l =>
        ((getMapsFromMisc scenarioMisc).1.get? (l.index "Id")).isSome)).map
          (fun l => l.index "Id")).Nodup ∧
    (join scenarioString [] [] scenarioMonsters scenarioMonLvl scenarioMisc
        scenarioLevels).json.map (fun j => j.monsters)
      = (scenarioLevels.filter (fun l =>
          ((getMapsFromMisc scenarioMisc).1.get? (l.index "Id")).isSome)).map
          (fun l => (attachedRecords l scenarioMonsters).map
            (fun m => (mkMonster (joinTables scenarioString [] [] scenarioMonLvl) l m).1)) :=
  ⟨by decide,
   join_monsters_of_distinct_ids scenarioString [] [] scenarioMonsters scenarioMonLvl
     scenarioMisc scenarioLevels (by decide)⟩

/-! ## Reading from a file -/

theorem File.Read_none (d : List Byte) (p n : Nat) (hn : 0 < n) (hp : d.length ≤ p) :
    File.Read { data := d, pos := p } n = none := by
  have hn0 : n ≠ 0 := by omega
  simp [File.Read, hn0, hp]

theorem File.Read_some (d : List Byte) (p n : Nat) (hn : 0 < n) (hp : p < d.length) :
    ∃ buf, File.Read { data := d, pos := p } n
        = some (buf, { data := d, pos := min (p + n) d.length }) ∧
      ∀ i, i < n → buf.getD i 0 = d.getD (p + i) 0 := by
  have hn0 : n ≠ 0 := by omega
  have hp2 : ¬ d.length ≤ p := by omega
  refine ⟨(d.drop p).take n ++ List.replicate (n - ((d.drop p).take n).length) 0, ?_, ?_⟩
  · simp only [File.Read, hn0, hp2, if_false]
    congr 3
    simp only [List.length_take, List.length_drop]
    omega
  · intro i hi
    simp only [List.getD_eq_getElem?_getD, List.getElem?_append, List.getElem?_take,
      List.getElem?_drop, List.getElem?_replicate, List.length_take, List.length_drop]
    by_cases h1 : i < min n (d.length - p)
    · have h2 : i < n := hi
      simp [h1, h2]
    · have h3 : i - min n (d.length - p) < n - min n (d.length - p) := by omega
      have h4 : d.length ≤ p + i := by omega
      simp [h1, h3, List.getElem?_eq_none h4]

theorem Uint16_of_getD (buf d : List Byte) (p : Nat)
    (h : ∀ i, i < 2 → buf.getD i 0 = d.getD (p + i) 0) : Uint16 buf = le16At d p := by
  have h0 := h 0 (by decide)
  have h1 := h 1 (by decide)
  simp only [Nat.add_zero] at h0
  unfold Uint16 le16At byteAt
  rw [h0, h1]

theorem Uint32_of_getD (buf d : List Byte) (p : Nat)
    (h : ∀ i, i < 4 → buf.getD i 0 = d.getD (p + i) 0) : Uint32 buf = le32At d p := by
  have h0 := h 0 (by decide)
  have h1 := h 1 (by decide)
  have h2 := h 2 (by decide)
  have h3 := h 3 (by decide)
  simp only [Nat.add_zero] at h0
  unfold Uint32 le32At byteAt
  rw [h0, h1, h2, h3]

theorem readBytesLoop_eq (delim : Byte) (l content : List Byte) :
    readBytesLoop delim l content =
      if delim ∈ l then some (content ++ l.takeWhile (fun x => !decide (x = delim)))
      else none := by
  induction l generalizing content with
  | nil => simp [readBytesLoop]
  | cons b rest ih =>
    by_cases hb : b = delim
    · subst hb
      simp [readBytesLoop, List.takeWhile]
    · have hb2 : ¬ delim = b := fun e => hb e.symm
      simp only [readBytesLoop, if_neg hb, ih, List.mem_cons, hb2, false_or]
      by_cases hm : delim ∈ rest
      · simp [hm, List.takeWhile, hb]
      · simp [hm]

theorem readBytes_eq (d : List Byte) (p : Nat) :
    readBytes { data := d, pos := p } 0 =
      if terminatedAt d p then
        some (cstringAt d p, { data := d, pos := p + (cstringAt d p).length + 1 })
      else none := by
  unfold readBytes terminatedAt cstringAt
  simp only [readBytesLoop_eq]
  by_cases hm : (0 : Byte) ∈ d.drop p
  · simp [hm]
  · simp [hm]

/-! ## The string-table reader -/

/-- One round of the element loop, in closed form: it fails exactly when the file ends
at or before byte 11 of the node or one of the two strings has no terminator. -/
theorem readTblNode_eq (d : List Byte) (p ns e : Nat) :
    readTblNode { data := d, pos := p } ns e =
      if d.length ≤ ns + e * 17 + 11 then none
      else if terminatedAt d (le32At d (ns + e * 17 + 7)) then
        if terminatedAt d (le32At d (ns + e * 17 + 11)) then
          some (cstringAt d (le32At d (ns + e * 17 + 7)),
                cstringAt d (le32At d (ns + e * 17 + 11)),
                { data := d,
                  pos := le32At d (ns + e * 17 + 11)
                    + (cstringAt d (le32At d (ns + e * 17 + 11))).length + 1 })
        else none
      else none := by
  unfold readTblNode
  simp only [File.SeekStart, File.SeekCurrent]
  by_cases h7 : d.length ≤ ns + e * 17 + 1 + 2 + 4
  · rw [File.Read_none d _ 4 (by decide) h7]
    have : d.length ≤ ns + e * 17 + 11 := by omega
    simp [this]
  · obtain ⟨buf1, hr1, hb1⟩ := File.Read_some d (ns + e * 17 + 1 + 2 + 4) 4 (by decide)
      (by omega)
    rw [hr1]
    have hk : Uint32 buf1 = le32At d (ns + e * 17 + 7) := Uint32_of_getD buf1 d _ hb1
    by_cases h11 : d.length ≤ ns + e * 17 + 11
    · have hmin : min (ns + e * 17 + 1 + 2 + 4 + 4) d.length = d.length := by omega
      simp only [Option.bind_eq_bind, Option.some_bind, hmin]
      rw [File.Read_none d _ 4 (by decide) (Nat.le_refl _)]
      simp [h11]
    · have hmin : min (ns + e * 17 + 1 + 2 + 4 + 4) d.length = ns + e * 17 + 11 := by omega
      obtain ⟨buf2, hr2, hb2⟩ := File.Read_some d (ns + e * 17 + 11) 4 (by decide) (by omega)
      have hv : Uint32 buf2 = le32At d (ns + e * 17 + 11) := Uint32_of_getD buf2 d _ hb2
      simp only [Option.bind_eq_bind, Option.some_bind, hmin, hr2, hk, hv, readBytes_eq,
        if_neg h11]
      by_cases t1 : terminatedAt d (le32At d (ns + e * 17 + 7))
      · by_cases t2 : terminatedAt d (le32At d (ns + e * 17 + 11))
        · simp [t1, t2]
        · simp [t1, t2]
      · simp [t1]

theorem readTblNode_data (f : File) (ns e : Nat) (k v : List Byte) (f1 : File)
    (h : readTblNode f ns e = some (k, v, f1)) : f1.data = f.data := by
  obtain ⟨d, p⟩ := f
  rw [readTblNode_eq] at h
  split at h
  · cases h
  · split at h
    · split at h
      · cases h; rfl
      · cases h
    · cases h

/-- The element loop fails as soon as one round fails. -/
theorem readTblLoop_none (ns : Nat) (es : List Nat) (f : File)
    (tbl : GoMap (List Byte) (List Byte))
    (h : ∃ e ∈ es, readTblNode { data := f.data, pos := 0 } ns e = none) :
    readTblLoop ns es f tbl = none := by
  induction es generalizing f tbl with
  | nil => obtain ⟨e, he, _⟩ := h; cases he
  | cons x xs ih =>
    obtain ⟨e, he, hn⟩ := h
    have hpos : ∀ q, readTblNode { data := f.data, pos := q } ns x
        = none ↔ readTblNode { data := f.data, pos := 0 } ns x = none := by
      intro q
      rw [readTblNode_eq, readTblNode_eq]
    unfold readTblLoop
    cases hx : readTblNode f ns x with
    | none => rfl
    | some r =>
      obtain ⟨k, v, f1⟩ := r
      simp only
      apply ih
      have hd := readTblNode_data f ns x k v f1 hx
      rcases List.mem_cons.mp he with h1 | h1
      · subst h1
        have := (hpos f.pos).mpr hn
        rw [show ({ data := f.data, pos := f.pos } : File) = f from rfl, hx] at this
        cases this
      · exact ⟨e, h1, by rw [hd]; exact hn⟩

/-- The element loop when every round succeeds: the assignments in element order. -/
theorem readTblLoop_some (d : List Byte) (ns : Nat) (es : List Nat) (f : File)
    (tbl : GoMap (List Byte) (List Byte)) (hf : f.data = d)
    (h11 : ∀ e ∈ es, ns + e * 17 + 11 < d.length)
    (hk : ∀ e ∈ es, terminatedAt d (le32At d (ns + e * 17 + 7)))
    (hv : ∀ e ∈ es, terminatedAt d (le32At d (ns + e * 17 + 11))) :
    readTblLoop ns es f tbl =
      some (es.foldl (fun t e => t.set (cstringAt d (le32At d (ns + e * 17 + 7)))
        (cstringAt d (le32At d (ns + e * 17 + 11)))) tbl) := by
  induction es generalizing f tbl with
  | nil => rfl
  | cons x xs ih =>
    obtain ⟨fd, fp⟩ := f
    simp only at hf
    subst hf
    unfold readTblLoop
    rw [readTblNode_eq, if_neg (by have := h11 x (List.mem_cons_self _ _); omega),
      if_pos (hk x (List.mem_cons_self _ _)), if_pos (hv x (List.mem_cons_self _ _))]
    simp only [List.foldl_cons]
    exact ih _ _ rfl (fun e he => h11 e (List.mem_cons_of_mem _ he))
      (fun e he => hk e (List.mem_cons_of_mem _ he))
      (fun e he => hv e (List.mem_cons_of_mem _ he))

/-- Reading the element positions when all of them lie inside the file. -/
theorem readTblElements_full (d : List Byte) (p n : Nat) (h : p + 2 * n ≤ d.length) :
    readTblElements { data := d, pos := p } n =
      some ((List.range n).map (fun i => le16At d (p + 2 * i)),
            { data := d, pos := p + 2 * n }) := by
  induction n generalizing p with
  | zero => rfl
  | succ n ih =>
    obtain ⟨buf, hr, hb⟩ := File.Read_some d p 2 (by decide) (by omega)
    have hmin : min (p + 2) d.length = p + 2 := by omega
    unfold readTblElements
    rw [hr, hmin]
    simp only
    rw [ih (p + 2) (by omega), Uint16_of_getD buf d p hb]
    simp only [Option.some.injEq, Prod.mk.injEq, File.mk.injEq, true_and]
    constructor
    · rw [List.range_succ_eq_map, List.map_cons, List.map_map]
      simp only [Nat.mul_zero, Nat.add_zero, List.cons.injEq, true_and]
      apply List.map_congr_left
      intro i _
      simp only [Function.comp, Nat.succ_eq_add_one]
      congr 1
      omega
    · omega

/-- Reading the element positions of a file that ends before the last of them: a
failure, or the read position is left at or past the end of the file. -/
theorem readTblElements_short (d : List Byte) (p n : Nat) (hn : 1 ≤ n)
    (h : d.length < p + 2 * n) (es : List Nat) (f1 : File)
    (hr : readTblElements { data := d, pos := p } n = some (es, f1)) :
    f1.data = d ∧ d.length ≤ f1.pos ∧ es ≠ [] := by
  induction n generalizing p es f1 with
  | zero => omega
  | succ n ih =>
    unfold readTblElements at hr
    by_cases hp : d.length ≤ p
    · rw [File.Read_none d p 2 (by decide) hp] at hr
      cases hr
    · obtain ⟨buf, hrd, _⟩ := File.Read_some d p 2 (by decide) (by omega)
      rw [hrd] at hr
      simp only at hr
      cases hrec : readTblElements { data := d, pos := min (p + 2) d.length } n with
      | none => rw [hrec] at hr; cases hr
      | some r =>
        obtain ⟨es2, f2⟩ := r
        rw [hrec] at hr
        simp only [Option.some.injEq, Prod.mk.injEq] at hr
        obtain ⟨h1, h2⟩ := hr
        subst h2
        refine ⟨?_, ?_, by rw [← h1]; exact List.cons_ne_nil _ _⟩
        · cases n with
          | zero =>
            unfold readTblElements at hrec
            cases hrec; rfl
          | succ m => exact (ih _ (by omega) (by omega) es2 f2 hrec).1
        · cases n with
          | zero =>
            unfold readTblElements at hrec
            cases hrec
            simp only
            omega
          | succ m => exact (ih _ (by omega) (by omega) es2 f2 hrec).2.1

theorem readTbl_short (d : List Byte) (h : d.length ≤ 2) : readTbl d = none := by
  unfold readTbl
  simp only [File.SeekCurrent]
  rw [File.Read_none d _ 2 (by decide) (by omega)]
  rfl

/-- `readTbl` on a file of more than two bytes: the header leaves the read position at
`min 4 size + 17`, from where the element positions are read and then the elements. -/
theorem readTbl_eq (d : List Byte) (h : 2 < d.length) :
    readTbl d =
      match readTblElements { data := d, pos := min 4 d.length + 17 } (elementCount d) with
      | none => none
      | some r => readTblLoop r.2.pos r.1 r.2 [] := by
  unfold readTbl
  simp only [File.SeekCurrent]
  obtain ⟨buf, hr, hb⟩ := File.Read_some d (0 + 2) 2 (by decide) (by omega)
  rw [hr]
  have hN : Uint16 buf = elementCount d := Uint16_of_getD buf d _ hb
  have hmin : min (0 + 2 + 2) d.length + 4 + 1 + 4 + 4 + 4 = min 4 d.length + 17 := by omega
  simp only [Option.bind_eq_bind, Option.some_bind, hN, hmin]
  cases readTblElements { data := d, pos := min 4 d.length + 17 } (elementCount d) with
  | none => rfl
  | some r => rfl

/-- Assignments under pairwise distinct keys build the list of pairs, last first. -/
theorem GoMap.foldl_set_nodup {κ α β : Type} [DecidableEq κ] (kf : β → κ) (vf : β → α)
    (xs : List β) (hnd : (xs.map kf).Nodup) :
    xs.foldl (fun m x => GoMap.set m (kf x) (vf x)) ([] : GoMap κ α)
      = (xs.map (fun x => (kf x, vf x))).reverse := by
  induction xs using List.reverseRecOn with
  | nil => rfl
  | append_singleton ys x ih =>
    rw [List.map_append, List.map_singleton] at hnd
    have hnd2 := List.nodup_append.mp hnd
    rw [List.foldl_append, List.foldl_cons, List.foldl_nil, ih hnd2.1, GoMap.set,
      List.map_append, List.reverse_append]
    simp only [List.map_cons, List.map_nil, List.reverse_cons, List.reverse_nil,
      List.nil_append, List.singleton_append, List.cons.injEq, true_and]
    rw [List.filter_eq_self]
    intro p hp
    have hp2 := List.mem_reverse.mp hp
    obtain ⟨y, hy, rfl⟩ := List.mem_map.mp hp2
    have hne : kf y ≠ kf x := by
      intro e
      exact hnd2.2.2 (List.mem_map_of_mem kf hy) (List.mem_singleton.mpr e)
    simp [hne]

theorem GoMap.foldl_set_get_of_nodup {κ α β : Type} [DecidableEq κ] (kf : β → κ)
    (vf : β → α) (xs : List β) (hnd : (xs.map kf).Nodup) (x : β) (hx : x ∈ xs)
    (m0 : GoMap κ α) :
    GoMap.get? (xs.foldl (fun m y => m.set (kf y) (vf y)) m0) (kf x) = some (vf x) := by
  obtain ⟨pre, post, rfl⟩ := List.append_of_mem hx
  apply GoMap.foldl_set_last kf vf pre post x m0 (kf x) rfl
  intro y hy e
  rw [List.map_append, List.map_cons] at hnd
  have h2 := (List.nodup_append.mp hnd).2.1
  exact (List.nodup_cons.mp h2).1 (e ▸ List.mem_map_of_mem kf hy)

/-- The mapping that `readTbl` returns for a well-formed file. -/
theorem readTbl_of_wellFormed (b : List Byte) (h : WellFormed b) :
    readTbl b = some ((List.range (elementCount b)).foldl
      (fun t i => GoMap.set t (elementKey b i) (elementValue b i)) []) := by
  have hlen := h.positions
  rw [readTbl_eq b (by omega)]
  have hmin : min 4 b.length + 17 = 21 := by omega
  rw [hmin, readTblElements_full b 21 (elementCount b) hlen]
  simp only
  have hmem : ∀ e ∈ (List.range (elementCount b)).map (fun i => le16At b (21 + 2 * i)),
      ∃ i, i < elementCount b ∧ e = elementIndex b i := by
    intro e he
    obtain ⟨i, hi, rfl⟩ := List.mem_map.mp he
    exact ⟨i, List.mem_range.mp hi, rfl⟩
  have hoff : ∀ i c, 21 + 2 * elementCount b + elementIndex b i * 17 + c
      = nodeOffset b i + c := by
    intro i c
    unfold nodeOffset
    omega
  rw [readTblLoop_some b (21 + 2 * elementCount b) _ _ [] rfl]
  · rw [List.foldl_map]
    congr 2
    funext t i
    have e7 := hoff i 7
    have e11 := hoff i 11
    unfold elementIndex at e7 e11
    unfold elementKey elementValue keyOffset valueOffset
    rw [e7, e11]
  · intro e he
    obtain ⟨i, hi, rfl⟩ := hmem e he
    have := h.nodes i hi
    rw [hoff i 11]
    omega
  · intro e he
    obtain ⟨i, hi, rfl⟩ := hmem e he
    rw [hoff i 7]
    exact h.keys i hi
  · intro e he
    obtain ⟨i, hi, rfl⟩ := hmem e he
    rw [hoff i 11]
    exact h.values i hi

/-- C1: for every well-formed table file `readTbl` returns a mapping; its keys are
exactly the `N` element keys, each once; and it maps the key of every element to the
value of that same element, with node, offsets and strings located as the layout says. -/
theorem readTbl_wellFormed (b : List Byte) (h : WellFormed b) :
    ∃ m, readTbl b = some m ∧
      (∀ k, k ∈ m.keys ↔ ∃ i, i < elementCount b ∧ elementKey b i = k) ∧
      m.keys.Nodup ∧ m.length = elementCount b ∧
      (∀ i, i < elementCount b → m.get? (elementKey b i) = some (elementValue b i)) := by
  have hnd : ((List.range (elementCount b)).map (elementKey b)).Nodup := by
    apply List.Nodup.map_on _ (List.nodup_range _)
    intro i hi j hj e
    exact h.distinct i (List.mem_range.mp hi) j (List.mem_range.mp hj) e
  refine ⟨_, readTbl_of_wellFormed b h, ?_, ?_, ?_, ?_⟩
  · intro k
    rw [GoMap.foldl_set_nodup (elementKey b) (elementValue b) _ hnd]
    simp [GoMap.keys, List.mem_range]
  · rw [GoMap.foldl_set_nodup (elementKey b) (elementValue b) _ hnd]
    simp only [GoMap.keys, List.map_reverse, List.map_map, List.nodup_reverse]
    exact hnd
  · rw [GoMap.foldl_set_nodup (elementKey b) (elementValue b) _ hnd]
    simp
  · intro i hi
    exact GoMap.foldl_set_get_of_nodup (elementKey b) (elementValue b) _ hnd i
      (List.mem_range.mpr hi) []

theorem sampleTbl_wellFormed : WellFormed sampleTbl :=
  ⟨by decide, by decide, by decide, by decide, by decide⟩

theorem readTbl_wellFormed_witness :
    WellFormed sampleTbl ∧
    ∃ m, readTbl sampleTbl = some m ∧
      (∀ k, k ∈ m.keys ↔ ∃ i, i < elementCount sampleTbl ∧ elementKey sampleTbl i = k) ∧
      m.keys.Nodup ∧ m.length = elementCount sampleTbl ∧
      (∀ i, i < elementCount sampleTbl →
        m.get? (elementKey sampleTbl i) = some (elementValue sampleTbl i)) :=
  ⟨sampleTbl_wellFormed, readTbl_wellFormed sampleTbl sampleTbl_wellFormed⟩

/-- C2, as stated, fails: a 3-byte file, which ends inside the element count and long
before the end of the 21-byte header, yields the empty mapping; and a file that ends
inside its only referenced hash node, after 2 bytes of the 4-byte value offset, yields
a one-entry mapping. -/
theorem readTbl_truncated_accepted :
    (([0, 0, 0] : List Byte).length < 21 ∧ readTbl [0, 0, 0] = some []) ∧
    (elementCount truncatedTbl = 1 ∧ nodeOffset truncatedTbl 0 = 23 ∧
      truncatedTbl.length = 23 + 13 ∧
      readTbl truncatedTbl = some [([97], [98])]) := by
  decide

/-- C2, amended: `readTbl` fails whenever one of its reads starts at or past the end
of the file: when the file has at most 2 bytes; when `N ≥ 1` and the file ends before
the end of the `N` element positions; when the file ends at or before byte 11 of a
referenced hash node, that is before the first byte of its value offset; and when a
referenced key or value string has no zero byte before the end of the file. -/
theorem readTbl_fails_at_eof (b : List Byte)
    (h : b.length ≤ 2 ∨
      (1 ≤ elementCount b ∧ b.length < 21 + 2 * elementCount b) ∨
      (∃ i, i < elementCount b ∧ b.length ≤ nodeOffset b i + 11) ∨
      (∃ i, i < elementCount b ∧ ¬ terminatedAt b (keyOffset b i)) ∨
      (∃ i, i < elementCount b ∧ ¬ terminatedAt b (valueOffset b i))) :
    readTbl b = none := by
  by_cases h2 : b.length ≤ 2
  · exact readTbl_short b h2
  rw [readTbl_eq b (by omega)]
  have hN : 1 ≤ elementCount b := by
    rcases h with h | ⟨h, _⟩ | ⟨i, hi, _⟩ | ⟨i, hi, _⟩ | ⟨i, hi, _⟩ <;> omega
  by_cases hlen : b.length < 21 + 2 * elementCount b
  · cases hr : readTblElements { data := b, pos := min 4 b.length + 17 } (elementCount b) with
    | none => rfl
    | some r =>
      obtain ⟨es, f1⟩ := r
      obtain ⟨hd, hpos, hne⟩ := readTblElements_short b (min 4 b.length + 17)
        (elementCount b) hN (by omega) es f1 hr
      simp only
      cases es with
      | nil => exact absurd rfl hne
      | cons e rest =>
        apply readTblLoop_none
        refine ⟨e, List.mem_cons_self _ _, ?_⟩
        rw [readTblNode_eq, hd, if_pos (by omega)]
  · have hmin : min 4 b.length + 17 = 21 := by omega
    rw [hmin, readTblElements_full b 21 (elementCount b) (by omega)]
    simp only
    have hoff : ∀ i c, 21 + 2 * elementCount b + elementIndex b i * 17 + c
        = nodeOffset b i + c := by
      intro i c
      unfold nodeOffset
      omega
    have hmem : ∀ i, i < elementCount b → elementIndex b i ∈
        (List.range (elementCount b)).map (fun i => le16At b (21 + 2 * i)) := by
      intro i hi
      exact List.mem_map.mpr ⟨i, List.mem_range.mpr hi, rfl⟩
    apply readTblLoop_none
    rcases h with h | ⟨_, h⟩ | ⟨i, hi, h⟩ | ⟨i, hi, h⟩ | ⟨i, hi, h⟩
    · omega
    · omega
    · refine ⟨elementIndex b i, hmem i hi, ?_⟩
      rw [readTblNode_eq, hoff i 11, if_pos h]
    · refine ⟨elementIndex b i, hmem i hi, ?_⟩
      rw [readTblNode_eq, hoff i 11, hoff i 7]
      unfold keyOffset at h
      simp [h]
    · refine ⟨elementIndex b i, hmem i hi, ?_⟩
      rw [readTblNode_eq, hoff i 11, hoff i 7]
      unfold valueOffset at h
      simp [h]

theorem readTbl_fails_at_eof_witness :
    (∃ i, i < elementCount (sampleTbl.take 43) ∧
      ¬ terminatedAt (sampleTbl.take 43) (valueOffset (sampleTbl.take 43) i)) ∧
    readTbl (sampleTbl.take 43) = none :=
  ⟨⟨0, by decide, by decide⟩,
   readTbl_fails_at_eof (sampleTbl.take 43)
     (Or.inr (Or.inr (Or.inr (Or.inr ⟨0, by decide, by decide⟩))))⟩

/-! ## The delimited record reader -/

theorem readDataFileLoop_eq (header : List String) (rows : List (List String))
    (items : List Record) (h : ∀ r ∈ rows, r.length = header.length) :
    readDataFileLoop header rows items
      = some (items ++ rows.map (readDataFileItem header)) := by
  induction rows generalizing items with
  | nil => simp [readDataFileLoop]
  | cons r rest ih =>
    unfold readDataFileLoop
    rw [if_pos (h r (List.mem_cons_self _ _)),
      ih _ (fun x hx => h x (List.mem_cons_of_mem _ hx))]
    simp

/-- What `readDataFile` returns for a header of `h` fields followed by rows of `h` fields:
`h` empty placeholder maps, then one mapping per data row in row order. -/
theorem readDataFile_eq (header : List String) (rows : List (List String))
    (h : ∀ r ∈ rows, r.length = header.length) :
    readDataFile (header :: rows)
      = some (List.replicate header.length [] ++ rows.map (readDataFileItem header)) := by
  unfold readDataFile
  exact readDataFileLoop_eq header rows _ h

/-- C11 fails on the code: for a two-field header and no data rows `readDataFile` returns
two empty placeholder maps, not the empty sequence; for a one-field header and one data
row it returns a placeholder followed by the row's mapping, two entries instead of one. -/
theorem readDataFile_placeholders :
    readDataFile [["Id", "Name"]] = some [[], []] ∧
    readDataFile [["Id"], [" 5 "]] = some [[], [("Id", "5")]] := by
  decide

/-! ## Decimal fields -/

theorem digitsValue_ge (cs : List Char) (n : Nat) : n ≤ digitsValue cs n := by
  induction cs generalizing n with
  | nil => exact Nat.le_refl _
  | cons c cs ih =>
    unfold digitsValue
    have := ih (n * 10 + (c.toNat - 48))
    omega

/-- The digit loop of `ParseUint` on digits only: the denoted number, or the range error
with `2^64 - 1` when that number does not fit 64 bits. -/
theorem ParseUintLoop_digits (cs : List Char) (n : Nat) (hn : n ≤ 18446744073709551615)
    (hall : cs.all Char.isDigit = true) :
    ParseUintLoop cs n =
      if digitsValue cs n ≤ 18446744073709551615 then (digitsValue cs n, none)
      else (18446744073709551615, some NumError.ErrRange) := by
  induction cs generalizing n with
  | nil => simp [ParseUintLoop, digitsValue, hn]
  | cons c cs ih =>
    rw [List.all_cons, Bool.and_eq_true] at hall
    unfold ParseUintLoop digitsValue
    rw [if_pos hall.1]
    have hge := digitsValue_ge cs (n * 10 + (c.toNat - 48))
    by_cases h1 : 1844674407370955162 ≤ n
    · rw [if_pos h1, if_neg (by omega)]
    · rw [if_neg h1]
      simp only
      by_cases h2 : 18446744073709551615 < n * 10 + (c.toNat - 48)
      · rw [if_pos h2, if_neg (by omega)]
      · rw [if_neg h2]
        exact ih _ (by omega) hall.2

/-- The digit loop of `ParseUint` on a run with a character that is no digit: an error,
with value `0` (syntax) or `2^64 - 1` (range). -/
theorem ParseUintLoop_nondigit (cs : List Char) (n : Nat)
    (hall : cs.all Char.isDigit = false) :
    ParseUintLoop cs n = (0, some NumError.ErrSyntax) ∨
      ParseUintLoop cs n = (18446744073709551615, some NumError.ErrRange) := by
  induction cs generalizing n with
  | nil => simp at hall
  | cons c cs ih =>
    unfold ParseUintLoop
    by_cases hc : c.isDigit = true
    · rw [if_pos hc]
      have hrest : cs.all Char.isDigit = false := by
        rw [List.all_cons, hc, Bool.true_and] at hall
        exact hall
      by_cases h1 : 1844674407370955162 ≤ n
      · rw [if_pos h1]; exact Or.inr rfl
      · rw [if_neg h1]
        simp only
        by_cases h2 : 18446744073709551615 < n * 10 + (c.toNat - 48)
        · rw [if_pos h2]; exact Or.inr rfl
        · rw [if_neg h2]; exact ih _ hrest
    · rw [if_neg hc]; exact Or.inl rfl

/-- `ParseInt` by cases on what follows the optional sign. -/
theorem ParseInt_cases (cs : List Char) :
    let neg : Bool := cs.head? = some '-'
    let ds := if cs.head? = some '+' ∨ cs.head? = some '-' then cs.tail else cs
    (ds = [] → ParseInt cs = (0, some NumError.ErrSyntax)) ∧
    (ds ≠ [] → ds.all Char.isDigit = true →
      ParseInt cs =
        if neg = false ∧ 9223372036854775808 ≤ digitsValue ds 0 then
          (9223372036854775807, some NumError.ErrRange)
        else if neg = true ∧ 9223372036854775808 < digitsValue ds 0 then
          (-9223372036854775808, some NumError.ErrRange)
        else (if neg then -(digitsValue ds 0 : Int) else (digitsValue ds 0 : Int), none)) ∧
    (ds ≠ [] → ds.all Char.isDigit = false →
      ParseInt cs = (0, some NumError.ErrSyntax) ∨
      ParseInt cs = (9223372036854775807, some NumError.ErrRange) ∨
      ParseInt cs = (-9223372036854775808, some NumError.ErrRange)) := by
  intro neg ds
  refine ⟨?_, ?_, ?_⟩
  · intro hds
    unfold ParseInt
    by_cases hcs : cs = []
    · rw [if_pos hcs]
    · rw [if_neg hcs]
      simp only
      have : ParseUint ds = (0, some NumError.ErrSyntax) := by
        unfold ParseUint; rw [if_pos hds]
      simp only [ds] at this
      rw [this]
  · intro hds hall
    have hcs : cs ≠ [] := by
      intro e
      apply hds
      simp [ds, e]
    unfold ParseInt
    rw [if_neg hcs]
    simp only
    have hU : ParseUint ds =
        if digitsValue ds 0 ≤ 18446744073709551615 then (digitsValue ds 0, none)
        else (18446744073709551615, some NumError.ErrRange) := by
      unfold ParseUint
      rw [if_neg hds]
      exact ParseUintLoop_digits ds 0 (by decide) hall
    simp only [ds] at hU
    rw [hU]
    simp only [ds, neg]
    generalize digitsValue (if cs.head? = some '+' ∨ cs.head? = some '-' then cs.tail else cs) 0
      = U
    generalize (decide (cs.head? = some '-')) = ng
    by_cases hfit : U ≤ 18446744073709551615
    · rw [if_pos hfit]
      simp only
      cases ng
      · by_cases hb : 9223372036854775808 ≤ U
        · simp [hb]
        · have : toInt64 (U : Int) = U := by unfold toInt64; omega
          simp [hb, this]
      · by_cases hb : 9223372036854775808 < U
        · simp [hb]
        · have : toInt64 (-(toInt64 (U : Int))) = -(U : Int) := by unfold toInt64; omega
          simp [hb, this]
    · rw [if_neg hfit]
      simp only
      cases ng
      · have hb : 9223372036854775808 ≤ U := by omega
        simp [hb]
      · have hb : 9223372036854775808 < U := by omega
        simp [hb]
  · intro hds hall
    have hcs : cs ≠ [] := by
      intro e
      apply hds
      simp [ds, e]
    unfold ParseInt
    rw [if_neg hcs]
    simp only
    have hU : ParseUint ds = (0, some NumError.ErrSyntax) ∨
        ParseUint ds = (18446744073709551615, some NumError.ErrRange) := by
      unfold ParseUint
      rw [if_neg hds]
      exact ParseUintLoop_nondigit ds 0 hall
    simp only [ds] at hU
    rcases hU with h | h
    · rw [h]; exact Or.inl rfl
    · rw [h]
      simp only
      generalize (decide (cs.head? = some '-')) = ng
      cases ng
      · right; left; simp
      · right; right; simp

theorem Atoi_of_decimalInt (s : String) (v : Int) (h : decimalInt s = some v) :
    Atoi s = (v, none) := by
  unfold decimalInt at h
  obtain ⟨_, h2, _⟩ := ParseInt_cases s.toList
  unfold Atoi
  simp only at h
  generalize (if s.toList.head? = some '+' ∨ s.toList.head? = some '-' then s.toList.tail
    else s.toList) = ds at h h2
  generalize (decide (s.toList.head? = some '-')) = ng at h h2
  by_cases hc : ds ≠ [] ∧ ds.all Char.isDigit = true
  · rw [if_pos hc] at h
    rw [h2 hc.1 hc.2]
    generalize digitsValue ds 0 = U at h ⊢
    cases ng
    · simp only [Bool.false_eq_true, if_false] at h ⊢
      by_cases hr : (-9223372036854775808 : Int) ≤ (U : Int) ∧ (U : Int) < 9223372036854775808
      · rw [if_pos hr] at h
        cases h
        rw [if_neg (by omega), if_neg (by simp)]
      · rw [if_neg hr] at h
        cases h
    · simp only [if_true] at h ⊢
      by_cases hr : (-9223372036854775808 : Int) ≤ -(U : Int) ∧ -(U : Int) < 9223372036854775808
      · rw [if_pos hr] at h
        cases h
        rw [if_neg (by simp), if_neg (by omega)]
      · rw [if_neg hr] at h
        cases h
  · rw [if_neg hc] at h
    cases h

theorem Atoi_err_of_not_decimalInt (s : String) (h : decimalInt s = none) :
    (Atoi s).2 ≠ none := by
  unfold decimalInt at h
  obtain ⟨h1, h2, h3⟩ := ParseInt_cases s.toList
  unfold Atoi
  simp only at h
  generalize (if s.toList.head? = some '+' ∨ s.toList.head? = some '-' then s.toList.tail
    else s.toList) = ds at h h1 h2 h3
  generalize (decide (s.toList.head? = some '-')) = ng at h h2
  by_cases hds : ds = []
  · rw [h1 hds]; simp
  · by_cases hall : ds.all Char.isDigit = true
    · rw [if_pos ⟨hds, hall⟩] at h
      rw [h2 hds hall]
      generalize digitsValue ds 0 = U at h ⊢
      cases ng
      · simp only [Bool.false_eq_true, if_false] at h ⊢
        have hU : 9223372036854775808 ≤ U := by
          by_contra hc
          rw [if_pos (by omega)] at h
          cases h
        simp [hU]
      · simp only [if_true] at h ⊢
        have hU : 9223372036854775808 < U := by
          by_contra hc
          rw [if_pos (by omega)] at h
          cases h
        simp [hU]
    · have hall2 : ds.all Char.isDigit = false := by simpa using hall
      rcases h3 hds hall2 with e | e | e <;> rw [e] <;> simp

/-- A resistance field gives the integer it denotes, and 0 when it denotes none. -/
theorem resistance_eq (s : String) : resistance s = (decimalInt s).getD 0 := by
  unfold resistance
  cases hd : decimalInt s with
  | some v => rw [Atoi_of_decimalInt s v hd]; rfl
  | none =>
    have := Atoi_err_of_not_decimalInt s hd
    cases ha : Atoi s with
    | mk v e =>
      cases e with
      | none => rw [ha] at this; exact absurd rfl this
      | some e => rfl

/-- A syntax error of `Atoi` comes with the value 0. -/
theorem Atoi_syntax_value (s : String) (h : (Atoi s).2 = some NumError.ErrSyntax) :
    (Atoi s).1 = 0 := by
  obtain ⟨h1, h2, h3⟩ := ParseInt_cases s.toList
  unfold Atoi at h ⊢
  generalize (if s.toList.head? = some '+' ∨ s.toList.head? = some '-' then s.toList.tail
    else s.toList) = ds at h1 h2 h3
  generalize (decide (s.toList.head? = some '-')) = ng at h2
  by_cases hds : ds = []
  · rw [h1 hds]
  · by_cases hall : ds.all Char.isDigit = true
    · rw [h2 hds hall] at h
      exfalso
      by_cases c1 : ng = false ∧ 9223372036854775808 ≤ digitsValue ds 0
      · rw [if_pos c1] at h; cases h
      · rw [if_neg c1] at h
        by_cases c2 : ng = true ∧ 9223372036854775808 < digitsValue ds 0
        · rw [if_pos c2] at h; cases h
        · rw [if_neg c2] at h; cases h
    · have hall2 : ds.all Char.isDigit = false := by simpa using hall
      rcases h3 hds hall2 with e | e | e
      · rw [e]
      · rw [e] at h; cases h
      · rw [e] at h; cases h

/-- C13: each of the six resistance values of the monster built for a level record and a
monster record is the integer denoted by the field `ResDm(H)`, `ResMa(H)`, `ResFi(H)`,
`ResLi(H)`, `ResCo(H)`, `ResPo(H)` respectively when that field parses as a decimal
integer, and 0 in every other case (missing, empty, non-numeric, out of range); the
monster is built for every record, no field value aborts. -/
theorem resistances_spec (T : Tables) (l m : Record) :
    (mkMonster T l m).1.PhysRes = (decimalInt (m.index "ResDm(H)")).getD 0 ∧
    (mkMonster T l m).1.MagicRes = (decimalInt (m.index "ResMa(H)")).getD 0 ∧
    (mkMonster T l m).1.FireRes = (decimalInt (m.index "ResFi(H)")).getD 0 ∧
    (mkMonster T l m).1.LightningRes = (decimalInt (m.index "ResLi(H)")).getD 0 ∧
    (mkMonster T l m).1.ColdRes = (decimalInt (m.index "ResCo(H)")).getD 0 ∧
    (mkMonster T l m).1.PoisonRes = (decimalInt (m.index "ResPo(H)")).getD 0 := by
  refine ⟨?_, ?_, ?_, ?_, ?_, ?_⟩ <;> exact resistance_eq _

/-- The part of C12 that the code keeps: a multiplier field that is a syntax error
(missing, empty, non-numeric) gives the multiplier 0. -/
theorem multiplier_zero_of_syntax_error (s : String)
    (h : (Atoi s).2 = some NumError.ErrSyntax) (B : Int) :
    divInt (mulInt (Atoi s).1 B) 100 = 0 := by
  rw [Atoi_syntax_value s h]
  simp [mulInt, divInt, toInt64]

/-- C12 fails on the code: the `HP(H)` value "9223372036854775808" is a decimal number
outside the 64-bit range, `Atoi` reports a range error together with the value
`2^63 - 1`, the error is dropped, and the closed-ruleset bounds for base hit points 1
and 3 are 92233720368547758, not 0. -/
theorem hp_multiplier_out_of_range :
    decimalInt "9223372036854775808" = none ∧
    Atoi "9223372036854775808" = (9223372036854775807, some NumError.ErrRange) ∧
    (mkMonster rangeTables [("MonLvl3", "3")]
        [("minHP", "1"), ("maxHP", "3")]).1.MinHpClosedBnet = 92233720368547758 ∧
    (mkMonster rangeTables [("MonLvl3", "3")]
        [("minHP", "1"), ("maxHP", "3")]).1.MaxHpClosedBnet = 92233720368547758 ∧
    resistance "9223372036854775808" = 0 := by
  decide

/-! ## Missing multiplier rows, repeated slots, shared identifiers -/

theorem groupMonsterLevelsById_miss (rows : List Record) (k : String)
    (h : ∀ r ∈ rows, r.index "Level" ≠ k) :
    GoMap.get? (groupMonsterLevelsById rows) k = none := by
  unfold groupMonsterLevelsById
  exact GoMap.foldl_set_other (fun r : Record => r.index "Level")
    (fun r : Record => ([("hpClosedBnet", r.index "HP(H)"),
      ("hpOpenBnet", r.index "L-HP(H)")] : Record)) rows [] k h

/-- C20, as stated, fails in its second case: with the `MonLvl3` field absent from the
level record and a level-multiplier row whose `Level` is empty, the absent field reads as
the empty string, that row applies, and the bounds are not 0. -/
theorem hp_bounds_absent_field :
    GoMap.get? ([("Id", "5")] : Record) "MonLvl3" = none ∧
    (mkMonster emptyLevelTables [("Id", "5")]
        [("minHP", "10"), ("maxHP", "20")]).1.MinHpClosedBnet = 12 ∧
    (mkMonster emptyLevelTables [("Id", "5")]
        [("minHP", "10"), ("maxHP", "20")]).1.MaxHpOpenBnet = 20 := by
  decide

/-- C20, amended: when the level record's `MonLvl3` value, an absent field reading as the
empty string, is not the `Level` key of any level-multiplier record, the monster built
for that level record has all four hit-point bounds equal to 0, whatever its `minHP` and
`maxHP`; the monster is built all the same. -/
theorem hp_bounds_zero_of_missing_level (T : Tables) (l m : Record) (rows : List Record)
    (hT : T.monsterLevels = groupMonsterLevelsById rows)
    (hmiss : ∀ r ∈ rows, r.index "Level" ≠ l.index "MonLvl3") :
    (mkMonster T l m).1.MinHpClosedBnet = 0 ∧ (mkMonster T l m).1.MaxHpClosedBnet = 0 ∧
    (mkMonster T l m).1.MinHpOpenBnet = 0 ∧ (mkMonster T l m).1.MaxHpOpenBnet = 0 := by
  have hg := groupMonsterLevelsById_miss rows (l.index "MonLvl3") hmiss
  rw [← hT] at hg
  have h0 : (Atoi (GoMap.index ([] : Record) "hpClosedBnet")).1 = 0 := by decide
  have h1 : (Atoi (GoMap.index ([] : Record) "hpOpenBnet")).1 = 0 := by decide
  have hz : ∀ B : Int, divInt (mulInt 0 B) 100 = 0 := by
    intro B
    simp [mulInt, divInt, toInt64]
  refine ⟨?_, ?_, ?_, ?_⟩ <;>
    simp only [mkMonster, hg, Option.getD_none, h0, h1, hz]

theorem hp_bounds_zero_of_missing_level_witness :
    scenarioTables.monsterLevels = groupMonsterLevelsById scenarioMonLvl ∧
    (∀ r ∈ scenarioMonLvl, r.index "Level" ≠ GoMap.index [("Id", "5")] "MonLvl3") ∧
    (mkMonster scenarioTables [("Id", "5")] [("minHP", "10")]).1.MinHpClosedBnet = 0 ∧
    (mkMonster scenarioTables [("Id", "5")] [("minHP", "10")]).1.MaxHpClosedBnet = 0 ∧
    (mkMonster scenarioTables [("Id", "5")] [("minHP", "10")]).1.MinHpOpenBnet = 0 ∧
    (mkMonster scenarioTables [("Id", "5")] [("minHP", "10")]).1.MaxHpOpenBnet = 0 :=
  ⟨rfl, by decide,
   hp_bounds_zero_of_missing_level scenarioTables [("Id", "5")] [("minHP", "10")]
     scenarioMonLvl rfl (by decide)⟩

theorem List.length_filter_le_of_imp {α : Type} (p q : α → Bool) (l : List α)
    (h : ∀ a, p a = true → q a = true) : (l.filter p).length ≤ (l.filter q).length := by
  induction l with
  | nil => exact Nat.le_refl _
  | cons x xs ih =>
    simp only [List.filter_cons]
    by_cases hp : p x = true
    · rw [if_pos hp, if_pos (h x hp)]
      simpa using ih
    · rw [if_neg hp]
      by_cases hq : q x = true
      · rw [if_pos hq]
        simp only [List.length_cons]
        omega
      · rw [if_neg hq]
        exact ih

/-- C19: processing one level record appends, to the list of its map, the entries built
from the attached monster records, a subsequence of the monster file in which every
record stands at most once, however many of the slots `mon1` .. `mon15` carry its `Id`;
so the number of entries appended is at most the number of monster records with a
non-empty `NameStr`; and one monster record adds at most one entry. -/
theorem monsters_appended_once (T : Tables) (l : Record) (ml : mapLevel)
    (monsters : List Record) (st : Heap × List String) (hp : ml.Monsters < st.1.length) :
    (monsters.foldl (monsterStep T l ml) st).1.deref ml.Monsters
      = st.1.deref ml.Monsters
          ++ (attachedRecords l monsters).map (fun m => (mkMonster T l m).1) ∧
    (attachedRecords l monsters).Sublist monsters ∧
    ((monsters.foldl (monsterStep T l ml) st).1.deref ml.Monsters).length
      ≤ (st.1.deref ml.Monsters).length
          + (monsters.filter (fun m => !decide (m.index "NameStr" = ""))).length ∧
    (∀ m, ((monsterStep T l ml st m).1.deref ml.Monsters).length
      ≤ (st.1.deref ml.Monsters).length + 1) := by
  obtain ⟨_, h2, _⟩ := monsters_foldl_heap T l ml monsters st hp
  have hle : (attachedRecords l monsters).length
      ≤ (monsters.filter (fun m => !decide (m.index "NameStr" = ""))).length := by
    unfold attachedRecords
    apply List.length_filter_le_of_imp
    intro a ha
    unfold attaches at ha
    rw [Bool.and_eq_true] at ha
    exact ha.1
  refine ⟨h2, List.filter_sublist _, ?_, ?_⟩
  · rw [h2]
    simp only [attachedMonsters, List.length_append, List.length_map]
    omega
  · intro m
    rw [monsterStep_eq]
    by_cases ha : attaches l m = true
    · rw [if_pos ha, Heap.deref_append_self _ _ _ hp]
      simp
    · rw [if_neg ha]
      omega

theorem monsters_appended_once_witness :
    (0 : Nat) < ([[]] : Heap).length ∧
    slotNames.countP (fun s => decide (GoMap.index repeatedSlotLevel s = "99")) = 3 ∧
    (scenarioMonsters.foldl
        (monsterStep scenarioTables repeatedSlotLevel ⟨"Blood Moor", 1, 0⟩)
        ([[]], [])).1.deref 0
      = Heap.deref [[]] 0
          ++ (attachedRecords repeatedSlotLevel scenarioMonsters).map
              (fun m => (mkMonster scenarioTables repeatedSlotLevel m).1) ∧
    (attachedRecords repeatedSlotLevel scenarioMonsters).length = 1 :=
  ⟨by decide, by decide,
   (monsters_appended_once scenarioTables repeatedSlotLevel ⟨"Blood Moor", 1, 0⟩
      scenarioMonsters ([[]], []) (by decide)).1,
   by decide⟩

/-- C15, as stated, fails: with two level records of the same `Id`, one naming monster
99 and the other monster 98, both output entries carry both monsters, although each
level record has a single attached monster record. -/
theorem join_shared_list :
    (join scenarioString [] [] sharedIdMonsters scenarioMonLvl scenarioMisc
        sharedIdLevels).json.map (fun j => j.monsters.map (fun x => x.DisplayName))
      = [["Skeleton", "Zombie"], ["Skeleton", "Zombie"]] ∧
    sharedIdLevels.map (fun l => (attachedRecords l sharedIdMonsters).length) = [1, 1] := by
  decide

/-- C15, amended: the monster list of the output entry for a level record collects, in
level order, the monsters attached to every level record that carries the same `Id`, each
built from its own level record; level records of another `Id` add nothing to it, and
when no other level record carries the same `Id` the list holds exactly the monsters
attached to the entry's own level record. -/
theorem join_lists_by_id (ss ps es : GoMap String String)
    (monsters rows misc levels pre post : List Record) (l : Record) (ml : mapLevel)
    (hlev : levels = pre ++ l :: post)
    (hg : (getMapsFromMisc misc).1.get? (l.index "Id") = some ml) :
    (∃ A B, (join ss ps es monsters rows misc levels).json
        = A ++ { displayName := ml.DisplayName, tier := ml.Tier,
                 monsters := levels.flatMap (fun x =>
                   if x.index "Id" = l.index "Id" then
                     attachedMonsters (joinTables ss ps es rows) x monsters
                   else []) } :: B ∧
      A.length
        = (pre.filterMap (fun x => (getMapsFromMisc misc).1.get? (x.index "Id"))).length) ∧
    ((∀ x ∈ pre ++ post, x.index "Id" ≠ l.index "Id") →
      levels.flatMap (fun x =>
          if x.index "Id" = l.index "Id" then
            attachedMonsters (joinTables ss ps es rows) x monsters
          else [])
        = attachedMonsters (joinTables ss ps es rows) l monsters) := by
  constructor
  · rw [join_json_eq]
    generalize hG : (fun l : Record =>
        ((getMapsFromMisc misc).1.get? (l.index "Id")).map (fun ml =>
          ({ displayName := ml.DisplayName, tier := ml.Tier,
             monsters := levels.flatMap (fun l' =>
              if l'.index "Id" = l.index "Id" then
                attachedMonsters (joinTables ss ps es rows) l' monsters
              else []) } : mapLevelJson))) = G
    have hGl : G l = some
        { displayName := ml.DisplayName, tier := ml.Tier,
          monsters := levels.flatMap (fun x =>
            if x.index "Id" = l.index "Id" then
              attachedMonsters (joinTables ss ps es rows) x monsters
            else []) } := by
      rw [← hG]
      simp only [hg, Option.map_some']
    refine ⟨pre.filterMap G, post.filterMap G, ?_, ?_⟩
    · rw [show List.filterMap G levels = List.filterMap G (pre ++ l :: post) from by rw [hlev],
        List.filterMap_append, List.filterMap_cons, hGl]
    · rw [← hG]
      exact List.length_filterMap_map' _ _ _
  · intro hother
    rw [hlev, List.flatMap_append, List.flatMap_cons, if_pos rfl,
      List.flatMap_eq_nil_of pre _ (fun x hx => by
        rw [if_neg (hother x (List.mem_append_left _ hx))]),
      List.flatMap_eq_nil_of post _ (fun x hx => by
        rw [if_neg (hother x (List.mem_append_right _ hx))])]
    simp

theorem join_lists_by_id_witness :
    sharedIdLevels = [] ++ [("Id", "5"), ("Name", "lvl5"), ("mon1", "99"), ("MonLvl3", "3")]
        :: [[("Id", "5"), ("Name", "lvl5b"), ("mon1", "98"), ("MonLvl3", "3")]] ∧
    (getMapsFromMisc scenarioMisc).1.get?
        (GoMap.index [("Id", "5"), ("Name", "lvl5"), ("mon1", "99"), ("MonLvl3", "3")] "Id")
      = some { DisplayName := "Blood Moor", Tier := 1, Monsters := 0 } ∧
    (∃ A B, (join scenarioString [] [] sharedIdMonsters scenarioMonLvl scenarioMisc
          sharedIdLevels).json
        = A ++ { displayName := "Blood Moor", tier := 1,
                 monsters := sharedIdLevels.flatMap (fun x =>
                   if x.index "Id" = GoMap.index
                       [("Id", "5"), ("Name", "lvl5"), ("mon1", "99"), ("MonLvl3", "3")] "Id"
                   then attachedMonsters (joinTables scenarioString [] [] scenarioMonLvl) x
                     sharedIdMonsters
                   else []) } :: B ∧
      A.length = (([] : List Record).filterMap
        (fun x => (getMapsFromMisc scenarioMisc).1.get? (x.index "Id"))).length) ∧
    scenarioLevels.flatMap (fun x =>
        if x.index "Id" = GoMap.index
            [("Id", "5"), ("Name", "lvl5"), ("mon1", "99"), ("MonLvl3", "3")] "Id"
        then attachedMonsters (joinTables scenarioString [] [] scenarioMonLvl) x
          scenarioMonsters
        else [])
      = attachedMonsters (joinTables scenarioString [] [] scenarioMonLvl)
          [("Id", "5"), ("Name", "lvl5"), ("mon1", "99"), ("MonLvl3", "3")] scenarioMonsters :=
  ⟨rfl, by decide,
   (join_lists_by_id scenarioString [] [] sharedIdMonsters scenarioMonLvl scenarioMisc
      sharedIdLevels [] [[("Id", "5"), ("Name", "lvl5b"), ("mon1", "98"), ("MonLvl3", "3")]]
      [("Id", "5"), ("Name", "lvl5"), ("mon1", "99"), ("MonLvl3", "3")]
      { DisplayName := "Blood Moor", Tier := 1, Monsters := 0 } rfl (by decide)).1,
   (join_lists_by_id scenarioString [] [] scenarioMonsters scenarioMonLvl scenarioMisc
      scenarioLevels [] []
      [("Id", "5"), ("Name", "lvl5"), ("mon1", "99"), ("MonLvl3", "3")]
      { DisplayName := "Blood Moor", Tier := 1, Monsters := 0 } rfl (by decide)).2
      (fun x hx => by cases hx)⟩

/-! ## Reading up to a delimiter -/

/-- `readBytes` for any delimiter, in closed form. -/
theorem readBytes_closed (b : List Byte) (p : Nat) (delim : Byte) :
    readBytes { data := b, pos := p } delim =
      if delim ∈ b.drop p then
        some ((b.drop p).takeWhile (fun x => !decide (x = delim)),
          { data := b,
            pos := p + ((b.drop p).takeWhile (fun x => !decide (x = delim))).length + 1 })
      else none := by
  unfold readBytes
  simp only [readBytesLoop_eq]
  by_cases hm : delim ∈ b.drop p
  · simp [hm]
  · simp [hm]

theorem List.takeWhile_ne_eq_take {α : Type} [DecidableEq α] (l : List α) (k : Nat) (d : α)
    (hk : l[k]? = some d) (hbefore : ∀ i, i < k → l[i]? ≠ some d) :
    l.takeWhile (fun x => !decide (x = d)) = l.take k := by
  induction l generalizing k with
  | nil => simp at hk
  | cons x xs ih =>
    cases k with
    | zero =>
      simp only [List.getElem?_cons_zero, Option.some.injEq] at hk
      simp [List.takeWhile, hk]
    | succ k =>
      have hx : x ≠ d := by
        intro e
        exact hbefore 0 (Nat.succ_pos _) (by simp [e])
      rw [List.getElem?_cons_succ] at hk
      have ih2 := ih k hk (fun i hi => by
        have := hbefore (i + 1) (by omega)
        rwa [List.getElem?_cons_succ] at this)
      simp [List.takeWhile, hx, ih2]

/-- The rounds of the loop agree with `readBytes` once there are more rounds than bytes
left in the file. -/
theorem readBytesRounds_eq (rounds : Nat) (b : List Byte) (p : Nat) (delim : Byte)
    (content : List Byte) (h : b.length - p < rounds) :
    readBytesRounds rounds { data := b, pos := p } delim content =
      some (if delim ∈ b.drop p then
        some (content ++ (b.drop p).takeWhile (fun x => !decide (x = delim)),
          { data := b,
            pos := p + ((b.drop p).takeWhile (fun x => !decide (x = delim))).length + 1 })
        else none) := by
  induction rounds generalizing p content with
  | zero => omega
  | succ rounds ih =>
    unfold readBytesRounds
    by_cases hp : b.length ≤ p
    · rw [File.Read_none b p 1 (by decide) hp]
      simp [List.drop_eq_nil_of_le hp]
    · have hp2 : p < b.length := by omega
      obtain ⟨buf, hr, hb⟩ := File.Read_some b p 1 (by decide) hp2
      have hb0 : buf.getD 0 0 = b[p] := by
        rw [hb 0 (by decide), Nat.add_zero, List.getD_eq_getElem _ _ hp2]
      have hmin : min (p + 1) b.length = p + 1 := by omega
      rw [hr, hmin]
      simp only [hb0]
      rw [List.drop_eq_getElem_cons hp2]
      by_cases hd : b[p] = delim
      · rw [if_pos hd]
        generalize b.drop (p + 1) = rest
        generalize b[p] = x at hd
        subst hd
        simp [List.takeWhile]
      · have hd2 : ¬ delim = b[p] := fun e => hd e.symm
        rw [if_neg hd, ih (p + 1) _ (by omega)]
        generalize b.drop (p + 1) = rest
        generalize b[p] = x at hd hd2
        by_cases hm : delim ∈ rest
        · simp only [hm, if_true, List.mem_cons, hd2, false_or, List.takeWhile, hd,
            decide_False, Bool.not_false, List.append_assoc, List.singleton_append,
            List.length_cons]
          congr 4
          omega
        · simp [hm, hd2]

/-- C16: `readBytes(f, delim)` started at position `p` of a file with contents `b`: when
`j` is the first index at or after `p` that holds `delim`, it returns exactly the bytes
`b[p..j)`, which hold no `delim`, and leaves the position at `j + 1`; when `delim` does
not occur at or after `p` it returns the error and no content. -/
theorem readBytes_spec (b : List Byte) (p : Nat) (delim : Byte) :
    (∀ j, p ≤ j → b[j]? = some delim → (∀ i, p ≤ i → i < j → b[i]? ≠ some delim) →
      readBytes { data := b, pos := p } delim
        = some ((b.drop p).take (j - p), { data := b, pos := j + 1 }) ∧
      delim ∉ (b.drop p).take (j - p)) ∧
    ((∀ j, p ≤ j → b[j]? ≠ some delim) →
      readBytes { data := b, pos := p } delim = none) := by
  constructor
  · intro j hpj hj hfirst
    have hk : (b.drop p)[j - p]? = some delim := by
      rw [List.getElem?_drop, show p + (j - p) = j by omega]
      exact hj
    have hbefore : ∀ i, i < j - p → (b.drop p)[i]? ≠ some delim := by
      intro i hi
      rw [List.getElem?_drop]
      exact hfirst (p + i) (by omega) (by omega)
    have htw := List.takeWhile_ne_eq_take (b.drop p) (j - p) delim hk hbefore
    have hmem : delim ∈ b.drop p := List.mem_iff_getElem?.mpr ⟨j - p, hk⟩
    have hjlen : j < b.length := by
      by_contra hc
      rw [List.getElem?_eq_none (by omega)] at hj
      cases hj
    constructor
    · rw [readBytes_closed, if_pos hmem, htw]
      simp only [List.length_take, List.length_drop, Option.some.injEq, Prod.mk.injEq,
        File.mk.injEq, true_and]
      omega
    · rw [← htw]
      intro hin
      have := List.mem_takeWhile_imp hin
      simp at this
  · intro hnone
    rw [readBytes_closed, if_neg]
    intro hmem
    obtain ⟨n, hn⟩ := List.mem_iff_getElem?.mp hmem
    rw [List.getElem?_drop] at hn
    exact hnone (p + n) (by omega) hn

theorem readBytes_spec_witness :
    (2 ≤ 5 ∧ sampleTbl[5]? = some 0 ∧ sampleTbl[2]? = some 1 ∧
      readBytes { data := sampleTbl, pos := 2 } 0
        = some ((sampleTbl.drop 2).take (3 - 2), { data := sampleTbl, pos := 3 + 1 })) ∧
    readBytes { data := [1, 2, 3], pos := 1 } 0 = none :=
  ⟨⟨by decide, by decide, by decide,
    ((readBytes_spec sampleTbl 2 0).1 3 (by decide) (by decide)
      (fun i h1 h2 => by
        have : i = 2 := by omega
        subst this
        decide)).1⟩,
   (readBytes_spec [1, 2, 3] 1 0).2 (fun j _ => by
      by_cases hj : j < 3
      · have : j = 0 ∨ j = 1 ∨ j = 2 := by omega
        rcases this with h | h | h <;> subst h <;> decide
      · rw [List.getElem?_eq_none (by simpa using hj)]
        simp)⟩

/-- C17, as stated, fails: on bytes without a zero byte the loop of `readBytes` returns
the error after four one-byte reads, the fourth at the end of the file; and `readTbl`
on a table file whose value string has no terminator fails instead of running on. -/
theorem readBytes_returns_error :
    (0 : Byte) ∉ ([1, 2, 3] : List Byte) ∧
    readBytesRounds 4 { data := [1, 2, 3], pos := 0 } 0 [] = some none ∧
    ¬ terminatedAt (sampleTbl.take 43) (valueOffset (sampleTbl.take 43) 0) ∧
    readTbl (sampleTbl.take 43) = none := by
  decide

/-- C17, amended: the loop of `readBytes` has no bound of its own, but every round reads
one byte and the read at the end of the file is an error, so after at most
`size - p + 1` rounds `readBytes` has returned; when no `delim` follows the start
position, what it returns is the error. -/
theorem readBytes_terminates (b : List Byte) (p : Nat) (delim : Byte) :
    readBytesRounds (b.length - p + 1) { data := b, pos := p } delim []
      = some (readBytes { data := b, pos := p } delim) ∧
    (delim ∉ b.drop p →
      readBytesRounds (b.length - p + 1) { data := b, pos := p } delim [] = some none) := by
  have h := readBytesRounds_eq (b.length - p + 1) b p delim [] (by omega)
  constructor
  · rw [h, readBytes_closed]
    simp
  · intro hno
    rw [h, if_neg hno]

theorem readBytes_terminates_witness :
    (0 : Byte) ∉ ([1, 2, 3] : List Byte).drop 1 ∧
    readBytesRounds (([1, 2, 3] : List Byte).length - 1 + 1)
      { data := [1, 2, 3], pos := 1 } 0 [] = some none :=
  ⟨by decide, (readBytes_terminates [1, 2, 3] 1 0).2 (by decide)⟩

/-! ## Repeated keys in one table file -/

theorem GoMap.keys_set {κ α : Type} [DecidableEq κ] (m : GoMap κ α) (k : κ) (v : α) :
    (GoMap.set m k v).keys = k :: m.keys.filter (fun x => !decide (x = k)) := by
  unfold GoMap.set GoMap.keys
  rw [List.map_cons, List.filter_map]
  rfl

theorem GoMap.nodup_keys_set {κ α : Type} [DecidableEq κ] (m : GoMap κ α) (k : κ) (v : α)
    (h : m.keys.Nodup) : (GoMap.set m k v).keys.Nodup := by
  rw [GoMap.keys_set, List.nodup_cons]
  constructor
  · intro hk
    have := (List.mem_filter.mp hk).2
    simp at this
  · exact h.filter _

theorem GoMap.mem_keys_set {κ α : Type} [DecidableEq κ] (m : GoMap κ α) (k x : κ) (v : α) :
    x ∈ (GoMap.set m k v).keys ↔ x = k ∨ x ∈ m.keys := by
  rw [GoMap.keys_set, List.mem_cons, List.mem_filter]
  constructor
  · rintro (h | ⟨h, _⟩)
    · exact Or.inl h
    · exact Or.inr h
  · rintro (h | h)
    · exact Or.inl h
    · by_cases e : x = k
      · exact Or.inl e
      · exact Or.inr ⟨h, by simp [e]⟩

theorem GoMap.length_set_le {κ α : Type} [DecidableEq κ] (m : GoMap κ α) (k : κ) (v : α) :
    (GoMap.set m k v).length ≤ m.length + 1 := by
  unfold GoMap.set
  rw [List.length_cons]
  exact Nat.succ_le_succ (List.length_filter_le _ _)

/-- A loop of assignments over `0 .. n-1`: keys stay unique, the keys are those of the
start map and of the loop, and at most `n` entries are added. -/
theorem GoMap.foldl_range_inv {κ α : Type} [DecidableEq κ] (kf : Nat → κ) (vf : Nat → α)
    (n : Nat) (m0 : GoMap κ α) (h0 : m0.keys.Nodup) :
    ((List.range n).foldl (fun m i => GoMap.set m (kf i) (vf i)) m0).keys.Nodup ∧
    (∀ x, x ∈ ((List.range n).foldl (fun m i => GoMap.set m (kf i) (vf i)) m0).keys ↔
      x ∈ m0.keys ∨ ∃ i, i < n ∧ kf i = x) ∧
    ((List.range n).foldl (fun m i => GoMap.set m (kf i) (vf i)) m0).length
      ≤ m0.length + n := by
  induction n with
  | zero => simp [h0]
  | succ n ih =>
    obtain ⟨i1, i2, i3⟩ := ih
    rw [List.range_succ, List.foldl_append, List.foldl_cons, List.foldl_nil]
    refine ⟨GoMap.nodup_keys_set _ _ _ i1, ?_, ?_⟩
    · intro x
      rw [GoMap.mem_keys_set, i2]
      constructor
      · rintro (h | h | ⟨i, hi, h⟩)
        · exact Or.inr ⟨n, Nat.lt_succ_self _, h.symm⟩
        · exact Or.inl h
        · exact Or.inr ⟨i, Nat.lt_succ_of_lt hi, h⟩
      · rintro (h | ⟨i, hi, h⟩)
        · exact Or.inr (Or.inl h)
        · by_cases e : i = n
          · subst e; exact Or.inl h.symm
          · exact Or.inr (Or.inr ⟨i, by omega, h⟩)
    · have := GoMap.length_set_le
        ((List.range n).foldl (fun m i => GoMap.set m (kf i) (vf i)) m0) (kf n) (vf n)
      omega

/-- A loop of assignments over `0 .. n-1`: the greatest index with a key decides its
value. -/
theorem GoMap.foldl_range_last {κ α : Type} [DecidableEq κ] (kf : Nat → κ) (vf : Nat → α)
    (n : Nat) (m0 : GoMap κ α) (i : Nat) (hi : i < n)
    (hlast : ∀ j, i < j → j < n → kf j ≠ kf i) :
    GoMap.get? ((List.range n).foldl (fun m i => GoMap.set m (kf i) (vf i)) m0) (kf i)
      = some (vf i) := by
  induction n with
  | zero => omega
  | succ n ih =>
    rw [List.range_succ, List.foldl_append, List.foldl_cons, List.foldl_nil]
    by_cases e : i = n
    · subst e
      exact GoMap.get?_set_self _ _ _
    · rw [GoMap.get?_set_ne _ _ _ _ (fun h => hlast n (by omega) (Nat.lt_succ_self _) h.symm)]
      exact ih (by omega) (fun j h1 h2 => hlast j h1 (by omega))

/-- The mapping that `readTbl` returns for a file it can read through. -/
theorem readTbl_of_readable (b : List Byte) (h : Readable b) :
    readTbl b = some ((List.range (elementCount b)).foldl
      (fun t i => GoMap.set t (elementKey b i) (elementValue b i)) []) := by
  have hlen := h.positions
  rw [readTbl_eq b (by omega)]
  have hmin : min 4 b.length + 17 = 21 := by omega
  rw [hmin, readTblElements_full b 21 (elementCount b) hlen]
  simp only
  have hmem : ∀ e ∈ (List.range (elementCount b)).map (fun i => le16At b (21 + 2 * i)),
      ∃ i, i < elementCount b ∧ e = elementIndex b i := by
    intro e he
    obtain ⟨i, hi, rfl⟩ := List.mem_map.mp he
    exact ⟨i, List.mem_range.mp hi, rfl⟩
  have hoff : ∀ i c, 21 + 2 * elementCount b + elementIndex b i * 17 + c
      = nodeOffset b i + c := by
    intro i c
    unfold nodeOffset
    omega
  rw [readTblLoop_some b (21 + 2 * elementCount b) _ _ [] rfl]
  · rw [List.foldl_map]
    congr 2
    funext t i
    have e7 := hoff i 7
    have e11 := hoff i 11
    unfold elementIndex at e7 e11
    unfold elementKey elementValue keyOffset valueOffset
    rw [e7, e11]
  · intro e he
    obtain ⟨i, hi, rfl⟩ := hmem e he
    have := h.nodes i hi
    rw [hoff i 11]
    omega
  · intro e he
    obtain ⟨i, hi, rfl⟩ := hmem e he
    rw [hoff i 7]
    exact h.keys i hi
  · intro e he
    obtain ⟨i, hi, rfl⟩ := hmem e he
    rw [hoff i 11]
    exact h.values i hi

/-- C14: for a table file that `readTbl` reads through, a key produced by several
elements is mapped to the value of the element with the greatest index among them; the
result has one entry per distinct key, its keys being exactly the element keys, so its
size is at most `N`. -/
theorem readTbl_last_write_wins (b : List Byte) (h : Readable b) :
    ∃ m, readTbl b = some m ∧
      (∀ i, i < elementCount b →
        (∀ j, i < j → j < elementCount b → elementKey b j ≠ elementKey b i) →
        m.get? (elementKey b i) = some (elementValue b i)) ∧
      m.keys.Nodup ∧
      (∀ k, k ∈ m.keys ↔ ∃ i, i < elementCount b ∧ elementKey b i = k) ∧
      m.length ≤ elementCount b := by
  obtain ⟨i1, i2, i3⟩ := GoMap.foldl_range_inv (elementKey b) (elementValue b)
    (elementCount b) [] (by simp [GoMap.keys])
  refine ⟨_, readTbl_of_readable b h, ?_, i1, ?_, ?_⟩
  · intro i hi hlast
    exact GoMap.foldl_range_last (elementKey b) (elementValue b) (elementCount b) [] i hi hlast
  · intro k
    rw [i2 k]
    simp [GoMap.keys]
  · simpa using i3

theorem duplicateKeyTbl_readable : Readable duplicateKeyTbl :=
  ⟨by decide, by decide, by decide, by decide⟩

theorem readTbl_last_write_wins_witness :
    Readable duplicateKeyTbl ∧
    elementKey duplicateKeyTbl 0 = elementKey duplicateKeyTbl 1 ∧
    readTbl duplicateKeyTbl = some [([97], [99])] ∧
    ∃ m, readTbl duplicateKeyTbl = some m ∧
      (∀ i, i < elementCount duplicateKeyTbl →
        (∀ j, i < j → j < elementCount duplicateKeyTbl →
          elementKey duplicateKeyTbl j ≠ elementKey duplicateKeyTbl i) →
        m.get? (elementKey duplicateKeyTbl i) = some (elementValue duplicateKeyTbl i)) ∧
      m.keys.Nodup ∧
      (∀ k, k ∈ m.keys ↔ ∃ i, i < elementCount duplicateKeyTbl ∧
        elementKey duplicateKeyTbl i = k) ∧
      m.length ≤ elementCount duplicateKeyTbl :=
  ⟨duplicateKeyTbl_readable, by decide, by decide,
   readTbl_last_write_wins duplicateKeyTbl duplicateKeyTbl_readable⟩

/-! ## The skipped fields -/

theorem skippedByte_false (b : List Byte) (j : Nat) (h1 : 2 ≤ j) (h2 : j < 4 ∨ 21 ≤ j)
    (h3 : ∀ i, i < elementCount b →
      ¬ (nodeOffset b i ≤ j ∧ j < nodeOffset b i + 7) ∧
      ¬ (nodeOffset b i + 15 ≤ j ∧ j < nodeOffset b i + 17)) :
    skippedByte b j = false := by
  rw [Bool.eq_false_iff]
  intro h
  simp only [skippedByte, Bool.or_eq_true, Bool.and_eq_true, decide_eq_true_eq,
    List.any_eq_true, List.mem_range] at h
  rcases h with (h | h) | ⟨i, hi, h⟩
  · omega
  · omega
  · have := h3 i hi
    rcases h with h | h
    · exact this.1 h
    · exact this.2 h

/-- The bytes of the element count, of the element positions and of the two offsets of
every referenced node are not skipped. -/
theorem skippedByte_read (b : List Byte) (j : Nat)
    (h : j = 2 ∨ j = 3 ∨ (21 ≤ j ∧ j < 21 + 2 * elementCount b) ∨
      ∃ i, i < elementCount b ∧ nodeOffset b i + 7 ≤ j ∧ j < nodeOffset b i + 15) :
    skippedByte b j = false := by
  apply skippedByte_false
  · rcases h with h | h | h | ⟨i, _, h, _⟩
    · omega
    · omega
    · omega
    · unfold nodeOffset at h; omega
  · rcases h with h | h | h | ⟨i, _, h, _⟩
    · omega
    · omega
    · omega
    · unfold nodeOffset at h; omega
  · intro k hk
    unfold nodeOffset
    rcases h with h | h | h | ⟨i, _, h5, h6⟩
    · omega
    · omega
    · omega
    · unfold nodeOffset at h5 h6
      omega

theorem byteAt_congr (b1 b2 : List Byte) (j : Nat) (h : b1[j]? = b2[j]?) :
    byteAt b1 j = byteAt b2 j := by
  unfold byteAt
  rw [List.getD_eq_getElem?_getD, List.getD_eq_getElem?_getD, h]

theorem List.takeWhile_congr_prefix {α : Type} [DecidableEq α] (d : α) (l1 l2 : List α)
    (hlen : l1.length = l2.length)
    (h : ∀ i, i ≤ (l1.takeWhile (fun x => !decide (x = d))).length → l1[i]? = l2[i]?) :
    (d ∈ l1 ↔ d ∈ l2) ∧
    l1.takeWhile (fun x => !decide (x = d)) = l2.takeWhile (fun x => !decide (x = d)) := by
  induction l1 generalizing l2 with
  | nil =>
    cases l2 with
    | nil => simp
    | cons y ys => simp at hlen
  | cons x xs ih =>
    cases l2 with
    | nil => simp at hlen
    | cons y ys =>
      have h0 := h 0 (Nat.zero_le _)
      simp only [List.getElem?_cons_zero, Option.some.injEq] at h0
      subst h0
      by_cases hx : x = d
      · subst hx
        simp [List.takeWhile]
      · have hd : ¬ d = x := fun e => hx e.symm
        have hlen2 : xs.length = ys.length := by simpa using hlen
        have htw : (x :: xs).takeWhile (fun x => !decide (x = d))
            = x :: xs.takeWhile (fun x => !decide (x = d)) := by
          simp [List.takeWhile, hx]
        have ih2 := ih ys hlen2 (fun i hi => by
          have := h (i + 1) (by rw [htw, List.length_cons]; omega)
          simpa using this)
        constructor
        · simp only [List.mem_cons, hd, false_or]
          exact ih2.1
        · simp only [List.takeWhile, hx, decide_False, Bool.not_false]
          rw [ih2.2]

/-- Two files of one length that agree on a string and its terminator yield the same
string there. -/
theorem cstringAt_congr (b1 b2 : List Byte) (off : Nat) (hlen : b1.length = b2.length)
    (h : ∀ j, off ≤ j → j ≤ off + (cstringAt b1 off).length → b1[j]? = b2[j]?) :
    (terminatedAt b1 off ↔ terminatedAt b2 off) ∧ cstringAt b1 off = cstringAt b2 off := by
  unfold terminatedAt cstringAt
  apply List.takeWhile_congr_prefix 0 (b1.drop off) (b2.drop off)
  · simp [hlen]
  · intro i hi
    rw [List.getElem?_drop, List.getElem?_drop]
    exact h (off + i) (by omega) (by unfold cstringAt; omega)

/-- The element loop on two files of one length that agree on the offsets and the
strings of the listed nodes runs alike. -/
theorem readTblLoop_congr (ns : Nat) (es : List Nat) (f1 f2 : File)
    (tbl : GoMap (List Byte) (List Byte)) (hlen : f1.data.length = f2.data.length)
    (h : ∀ e ∈ es, ns + e * 17 + 11 < f1.data.length →
      le32At f1.data (ns + e * 17 + 7) = le32At f2.data (ns + e * 17 + 7) ∧
      le32At f1.data (ns + e * 17 + 11) = le32At f2.data (ns + e * 17 + 11) ∧
      ∀ off, off = le32At f1.data (ns + e * 17 + 7) ∨
          off = le32At f1.data (ns + e * 17 + 11) →
        (terminatedAt f1.data off ↔ terminatedAt f2.data off) ∧
        cstringAt f1.data off = cstringAt f2.data off) :
    readTblLoop ns es f1 tbl = readTblLoop ns es f2 tbl := by
  induction es generalizing f1 f2 tbl with
  | nil => rfl
  | cons x xs ih =>
    obtain ⟨d1, p1⟩ := f1
    obtain ⟨d2, p2⟩ := f2
    simp only at hlen h
    unfold readTblLoop
    rw [readTblNode_eq, readTblNode_eq]
    by_cases c : d1.length ≤ ns + x * 17 + 11
    · rw [if_pos c, if_pos (show d2.length ≤ ns + x * 17 + 11 by omega)]
    · rw [if_neg c, if_neg (show ¬ d2.length ≤ ns + x * 17 + 11 by omega)]
      obtain ⟨hk, hv, hs⟩ := h x (List.mem_cons_self _ _) (by omega)
      obtain ⟨tk, sk⟩ := hs _ (Or.inl rfl)
      obtain ⟨tv, sv⟩ := hs _ (Or.inr rfl)
      rw [← hk, ← hv, ← sk, ← sv]
      by_cases t1 : terminatedAt d1 (le32At d1 (ns + x * 17 + 7))
      · rw [if_pos t1, if_pos (tk.mp t1)]
        by_cases t2 : terminatedAt d1 (le32At d1 (ns + x * 17 + 11))
        · rw [if_pos t2, if_pos (tv.mp t2)]
          simp only
          exact ih _ _ _ hlen (fun e he => h e (List.mem_cons_of_mem _ he))
        · rw [if_neg t2, if_neg (fun t => t2 (tv.mpr t))]
      · rw [if_neg t1, if_neg (fun t => t1 (tk.mpr t))]

theorem readTbl_no_elements (b : List Byte) (h : 2 < b.length) (hN : elementCount b = 0) :
    readTbl b = some [] := by
  rw [readTbl_eq b h, hN]
  rfl

theorem readTbl_short_table (b : List Byte) (hN : 1 ≤ elementCount b)
    (hlen : b.length < 21 + 2 * elementCount b) : readTbl b = none := by
  by_cases h2 : b.length ≤ 2
  · exact readTbl_short b h2
  rw [readTbl_eq b (by omega)]
  cases hr : readTblElements { data := b, pos := min 4 b.length + 17 } (elementCount b) with
  | none => rfl
  | some r =>
    obtain ⟨es, f1⟩ := r
    obtain ⟨hd, hpos, hne⟩ := readTblElements_short b (min 4 b.length + 17)
      (elementCount b) hN (by omega) es f1 hr
    simp only
    cases es with
    | nil => exact absurd rfl hne
    | cons e rest =>
      apply readTblLoop_none
      refine ⟨e, List.mem_cons_self _ _, ?_⟩
      rw [readTblNode_eq, hd, if_pos (by omega)]

theorem readTbl_full (b : List Byte) (hlen : 21 + 2 * elementCount b ≤ b.length) :
    readTbl b = readTblLoop (21 + 2 * elementCount b)
      ((List.range (elementCount b)).map (elementIndex b))
      { data := b, pos := 21 + 2 * elementCount b } [] := by
  rw [readTbl_eq b (by omega)]
  have hmin : min 4 b.length + 17 = 21 := by omega
  rw [hmin, readTblElements_full b 21 (elementCount b) hlen]
  rfl

/-- Two files of equal length that agree on every byte outside the skipped fields and on
the bytes of every string that is read, terminator included, have the same outcome. -/
theorem readTbl_congr_of_agree (b1 b2 : List Byte) (hlen : b1.length = b2.length)
    (hagree : ∀ j, skippedByte b1 j = false → b1[j]? = b2[j]?)
    (hstr : ∀ i, i < elementCount b1 → nodeOffset b1 i + 11 < b1.length →
      ∀ off, off = keyOffset b1 i ∨ off = valueOffset b1 i →
        ∀ j, off ≤ j → j ≤ off + (cstringAt b1 off).length → b1[j]? = b2[j]?) :
    readTbl b1 = readTbl b2 := by
  have hbyte : ∀ j, skippedByte b1 j = false → byteAt b1 j = byteAt b2 j :=
    fun j hj => byteAt_congr b1 b2 j (hagree j hj)
  have hN : elementCount b1 = elementCount b2 := by
    unfold elementCount le16At
    rw [hbyte 2 (skippedByte_read b1 2 (Or.inl rfl)),
      hbyte (2 + 1) (skippedByte_read b1 (2 + 1) (Or.inr (Or.inl rfl)))]
  by_cases h2 : b1.length ≤ 2
  · rw [readTbl_short b1 h2, readTbl_short b2 (by omega)]
  by_cases h0 : elementCount b1 = 0
  · rw [readTbl_no_elements b1 (by omega) h0,
      readTbl_no_elements b2 (by omega) (by rw [← hN]; exact h0)]
  by_cases hs : b1.length < 21 + 2 * elementCount b1
  · rw [readTbl_short_table b1 (by omega) hs,
      readTbl_short_table b2 (by omega) (by rw [← hN, ← hlen]; exact hs)]
  have hE : ∀ i, i < elementCount b1 → elementIndex b1 i = elementIndex b2 i := by
    intro i hi
    unfold elementIndex le16At
    rw [hbyte (21 + 2 * i) (skippedByte_read b1 _ (Or.inr (Or.inr (Or.inl (by omega))))),
      hbyte (21 + 2 * i + 1) (skippedByte_read b1 _ (Or.inr (Or.inr (Or.inl (by omega)))))]
  have hmap : (List.range (elementCount b1)).map (elementIndex b2)
      = (List.range (elementCount b1)).map (elementIndex b1) := by
    apply List.map_congr_left
    intro i hi
    exact (hE i (List.mem_range.mp hi)).symm
  rw [readTbl_full b1 (by omega), readTbl_full b2 (by rw [← hN, ← hlen]; omega), ← hN, hmap]
  apply readTblLoop_congr _ _ _ _ _ hlen
  intro e he hnode
  obtain ⟨i, hi, rfl⟩ := List.mem_map.mp he
  have hi2 : i < elementCount b1 := List.mem_range.mp hi
  simp only at hnode ⊢
  have hoff : ∀ c, 21 + 2 * elementCount b1 + elementIndex b1 i * 17 + c
      = nodeOffset b1 i + c := by
    intro c
    unfold nodeOffset
    omega
  have hnb : ∀ t, t < 8 → byteAt b1 (nodeOffset b1 i + 7 + t)
      = byteAt b2 (nodeOffset b1 i + 7 + t) := by
    intro t ht
    exact hbyte _ (skippedByte_read b1 _ (Or.inr (Or.inr (Or.inr ⟨i, hi2, by omega, by omega⟩))))
  have hk : le32At b1 (nodeOffset b1 i + 7) = le32At b2 (nodeOffset b1 i + 7) := by
    unfold le32At
    have e0 := hnb 0 (by decide)
    have e1 := hnb 1 (by decide)
    have e2 := hnb 2 (by decide)
    have e3 := hnb 3 (by decide)
    simp only [Nat.add_zero] at e0
    rw [e0, e1, e2, e3]
  have hv : le32At b1 (nodeOffset b1 i + 11) = le32At b2 (nodeOffset b1 i + 11) := by
    unfold le32At
    have e0 := hnb 4 (by decide)
    have e1 := hnb 5 (by decide)
    have e2 := hnb 6 (by decide)
    have e3 := hnb 7 (by decide)
    simp only [Nat.add_assoc, Nat.reduceAdd] at e0 e1 e2 e3 ⊢
    rw [e0, e1, e2, e3]
  rw [hoff 7, hoff 11]
  rw [hoff 11] at hnode
  refine ⟨hk, hv, ?_⟩
  intro off hoffs
  apply cstringAt_congr b1 b2 off hlen
  intro j h1 h2
  exact hstr i hi2 hnode off hoffs j h1 h2

theorem skippedByte_eq_true_iff (b : List Byte) (j : Nat) :
    skippedByte b j = true ↔
      (j < 2 ∨ 4 ≤ j ∧ j < 21) ∨
      ∃ i, i < elementCount b ∧
        (nodeOffset b i ≤ j ∧ j < nodeOffset b i + 7 ∨
          nodeOffset b i + 15 ≤ j ∧ j < nodeOffset b i + 17) := by
  simp only [skippedByte, Bool.or_eq_true, Bool.and_eq_true, decide_eq_true_eq,
    List.any_eq_true, List.mem_range]

/-- Two files that agree outside the skipped fields have the same element count, the same
node offsets, the same string offsets and the same skipped bytes. -/
theorem skipped_layout_eq (b1 b2 : List Byte)
    (hagree : ∀ j, skippedByte b1 j = false → b1[j]? = b2[j]?) :
    elementCount b1 = elementCount b2 ∧
    (∀ i, i < elementCount b1 →
      nodeOffset b1 i = nodeOffset b2 i ∧ keyOffset b1 i = keyOffset b2 i ∧
      valueOffset b1 i = valueOffset b2 i) ∧
    ∀ j, skippedByte b1 j = skippedByte b2 j := by
  have hbyte : ∀ j, skippedByte b1 j = false → byteAt b1 j = byteAt b2 j :=
    fun j hj => byteAt_congr b1 b2 j (hagree j hj)
  have hN : elementCount b1 = elementCount b2 := by
    unfold elementCount le16At
    rw [hbyte 2 (skippedByte_read b1 2 (Or.inl rfl)),
      hbyte (2 + 1) (skippedByte_read b1 (2 + 1) (Or.inr (Or.inl rfl)))]
  have hE : ∀ i, i < elementCount b1 → elementIndex b1 i = elementIndex b2 i := by
    intro i hi
    unfold elementIndex le16At
    rw [hbyte (21 + 2 * i) (skippedByte_read b1 _ (Or.inr (Or.inr (Or.inl (by omega))))),
      hbyte (21 + 2 * i + 1) (skippedByte_read b1 _ (Or.inr (Or.inr (Or.inl (by omega)))))]
  have hO : ∀ i, i < elementCount b1 → nodeOffset b1 i = nodeOffset b2 i := by
    intro i hi
    unfold nodeOffset
    rw [hN, hE i hi]
  refine ⟨hN, ?_, ?_⟩
  · intro i hi
    have hnb : ∀ t, t < 8 → byteAt b1 (nodeOffset b1 i + 7 + t)
        = byteAt b2 (nodeOffset b1 i + 7 + t) := by
      intro t ht
      exact hbyte _ (skippedByte_read b1 _
        (Or.inr (Or.inr (Or.inr ⟨i, hi, by omega, by omega⟩))))
    refine ⟨hO i hi, ?_, ?_⟩
    · unfold keyOffset
      rw [← hO i hi]
      unfold le32At
      have e0 := hnb 0 (by decide)
      have e1 := hnb 1 (by decide)
      have e2 := hnb 2 (by decide)
      have e3 := hnb 3 (by decide)
      simp only [Nat.add_zero] at e0
      rw [e0, e1, e2, e3]
    · unfold valueOffset
      rw [← hO i hi]
      unfold le32At
      have e0 := hnb 4 (by decide)
      have e1 := hnb 5 (by decide)
      have e2 := hnb 6 (by decide)
      have e3 := hnb 7 (by decide)
      simp only [Nat.add_assoc, Nat.reduceAdd] at e0 e1 e2 e3 ⊢
      rw [e0, e1, e2, e3]
  · intro j
    rw [Bool.eq_iff_iff, skippedByte_eq_true_iff, skippedByte_eq_true_iff, ← hN]
    constructor
    · rintro (h | ⟨i, hi, h⟩)
      · exact Or.inl h
      · exact Or.inr ⟨i, hi, by rw [← hO i hi]; exact h⟩
    · rintro (h | ⟨i, hi, h⟩)
      · exact Or.inl h
      · exact Or.inr ⟨i, hi, by rw [hO i hi]; exact h⟩

theorem List.takeWhile_getElem? {α : Type} (p : α → Bool) (l : List α) (i : Nat)
    (hi : i < (l.takeWhile p).length) : ∃ x, l[i]? = some x ∧ p x = true := by
  induction l generalizing i with
  | nil => simp at hi
  | cons x xs ih =>
    by_cases hx : p x = true
    · have htw : (x :: xs).takeWhile p = x :: xs.takeWhile p := by simp [List.takeWhile, hx]
      rw [htw, List.length_cons] at hi
      cases i with
      | zero => exact ⟨x, by simp, hx⟩
      | succ i =>
        obtain ⟨y, hy, hpy⟩ := ih i (by omega)
        exact ⟨y, by simpa using hy, hpy⟩
    · have htw : (x :: xs).takeWhile p = [] := by simp [List.takeWhile, hx]
      rw [htw] at hi
      simp at hi

theorem List.takeWhile_stop {α : Type} (p : α → Bool) (l : List α)
    (h : (l.takeWhile p).length < l.length) :
    ∃ x, l[(l.takeWhile p).length]? = some x ∧ p x = false := by
  induction l with
  | nil => simp at h
  | cons x xs ih =>
    by_cases hx : p x = true
    · have htw : (x :: xs).takeWhile p = x :: xs.takeWhile p := by simp [List.takeWhile, hx]
      rw [htw, List.length_cons, List.length_cons] at h
      obtain ⟨y, hy, hpy⟩ := ih (by omega)
      rw [htw, List.length_cons]
      exact ⟨y, by simpa using hy, hpy⟩
    · have htw : (x :: xs).takeWhile p = [] := by simp [List.takeWhile, hx]
      rw [htw]
      exact ⟨x, by simp, by simpa using hx⟩

theorem List.takeWhile_length_gt {α : Type} (p : α → Bool) (l : List α) (k : Nat)
    (h : ∀ i, i ≤ k → ∃ x, l[i]? = some x ∧ p x = true) : k < (l.takeWhile p).length := by
  induction l generalizing k with
  | nil =>
    obtain ⟨x, hx, _⟩ := h 0 (Nat.zero_le _)
    simp at hx
  | cons x xs ih =>
    obtain ⟨y, hy, hpy⟩ := h 0 (Nat.zero_le _)
    simp only [List.getElem?_cons_zero, Option.some.injEq] at hy
    subst hy
    have htw : (x :: xs).takeWhile p = x :: xs.takeWhile p := by simp [List.takeWhile, hpy]
    rw [htw, List.length_cons]
    cases k with
    | zero => omega
    | succ k =>
      have := ih k (fun i hi => by
        obtain ⟨z, hz, hpz⟩ := h (i + 1) (by omega)
        exact ⟨z, by simpa using hz, hpz⟩)
      omega

/-- When the strings of both files keep clear of the skipped bytes, the two files agree
on every string of the first, terminator included. -/
theorem cstring_agree (b1 b2 : List Byte) (off : Nat) (hlen : b1.length = b2.length)
    (hagree : ∀ j, skippedByte b1 j = false → b1[j]? = b2[j]?)
    (h1 : ∀ j, off ≤ j → j < off + (cstringAt b1 off).length → skippedByte b1 j = false)
    (h2 : ∀ j, off ≤ j → j < off + (cstringAt b2 off).length → skippedByte b1 j = false) :
    ∀ j, off ≤ j → j ≤ off + (cstringAt b1 off).length → b1[j]? = b2[j]? := by
  intro j hj1 hj2
  by_cases hlt : j < off + (cstringAt b1 off).length
  · exact hagree j (h1 j hj1 hlt)
  have hje : j = off + (cstringAt b1 off).length := by omega
  by_cases hsk : skippedByte b1 j = false
  · exact hagree j hsk
  by_cases hjl : j < b1.length
  · have hj2l : j < b2.length := by omega
    obtain ⟨x, hx, hpx⟩ := List.takeWhile_stop (fun x => !decide (x = (0 : Byte)))
      (b1.drop off) (by
        have : (cstringAt b1 off).length < b1.length - off := by omega
        simpa [cstringAt] using this)
    rw [List.getElem?_drop] at hx
    have hx0 : x = 0 := by simpa using hpx
    have hb1 : b1[j]? = some 0 := by
      rw [hje]
      unfold cstringAt
      rw [hx, hx0]
    by_cases hy : b2[j] = 0
    · rw [hb1, List.getElem?_eq_getElem hj2l, hy]
    · exfalso
      apply hsk
      apply h2 j hj1
      rw [hje]
      apply Nat.add_lt_add_left
      unfold cstringAt
      apply List.takeWhile_length_gt
      intro i hi
      rw [List.getElem?_drop]
      by_cases hil : i < ((b1.drop off).takeWhile (fun x => !decide (x = (0 : Byte)))).length
      · obtain ⟨z, hz, hpz⟩ := List.takeWhile_getElem? (fun x => !decide (x = (0 : Byte)))
          (b1.drop off) i hil
        rw [List.getElem?_drop] at hz
        rw [← hagree (off + i) (h1 (off + i) (by omega) (by unfold cstringAt; omega))]
        exact ⟨z, hz, hpz⟩
      · have hie : off + i = j := by
          unfold cstringAt at hje
          omega
        rw [hie]
        exact ⟨b2[j], List.getElem?_eq_getElem hj2l, by simpa using hy⟩
  · rw [List.getElem?_eq_none (by omega), List.getElem?_eq_none (by omega)]

/-- C18: for two files of equal length that agree on every byte outside the skipped
fields (header bytes 0-1 and 4-20, bytes 0-6 and 15-16 of every referenced hash node),
and in neither of which a key or value string of a node whose offsets lie inside the
file overlaps a skipped byte, `readTbl` has the same outcome: the same mapping or
failure in both. -/
theorem readTbl_ignores_skipped (b1 b2 : List Byte) (hlen : b1.length = b2.length)
    (hagree : ∀ j, skippedByte b1 j = false → b1[j]? = b2[j]?)
    (hstr1 : ∀ i, i < elementCount b1 → nodeOffset b1 i + 11 < b1.length →
      ∀ off, off = keyOffset b1 i ∨ off = valueOffset b1 i →
        ∀ j, off ≤ j → j < off + (cstringAt b1 off).length → skippedByte b1 j = false)
    (hstr2 : ∀ i, i < elementCount b2 → nodeOffset b2 i + 11 < b2.length →
      ∀ off, off = keyOffset b2 i ∨ off = valueOffset b2 i →
        ∀ j, off ≤ j → j < off + (cstringAt b2 off).length → skippedByte b2 j = false) :
    readTbl b1 = readTbl b2 := by
  obtain ⟨hN, hO, hS⟩ := skipped_layout_eq b1 b2 hagree
  apply readTbl_congr_of_agree b1 b2 hlen hagree
  intro i hi hnode off hoffs
  obtain ⟨o1, o2, o3⟩ := hO i hi
  apply cstring_agree b1 b2 off hlen hagree (hstr1 i hi hnode off hoffs)
  intro j hj1 hj2
  rw [hS j]
  apply hstr2 i (by rw [← hN]; exact hi) (by rw [← o1, ← hlen]; exact hnode) off _ j hj1 hj2
  rcases hoffs with h | h
  · exact Or.inl (h.trans o2)
  · exact Or.inr (h.trans o3)

theorem readTbl_ignores_skipped_witness :
    sampleTbl.length = unusedFlagTbl.length ∧
    sampleTbl[23]? = some 1 ∧ unusedFlagTbl[23]? = some 0 ∧
    readTbl unusedFlagTbl = some [([97], [98])] ∧
    readTbl sampleTbl = readTbl unusedFlagTbl := by
  refine ⟨by decide, by decide, by decide, by decide, ?_⟩
  apply readTbl_ignores_skipped sampleTbl unusedFlagTbl (by decide)
  · intro j
    by_cases hj : j < 44
    · interval_cases j <;> decide
    · intro _
      rw [List.getElem?_eq_none (by simpa [sampleTbl] using hj),
        List.getElem?_eq_none (by simpa [unusedFlagTbl] using hj)]
  · intro i hi _ off hoffs j h1 h2
    have hN : elementCount sampleTbl = 1 := by decide
    have hi0 : i = 0 := by omega
    subst hi0
    have hk : keyOffset sampleTbl 0 = 40 := by decide
    have hv : valueOffset sampleTbl 0 = 42 := by decide
    have lk : (cstringAt sampleTbl 40).length = 1 := by decide
    have lv : (cstringAt sampleTbl 42).length = 1 := by decide
    rcases hoffs with h | h
    · rw [h, hk] at h1 h2
      rw [lk] at h2
      interval_cases j
      decide
    · rw [h, hv] at h1 h2
      rw [lv] at h2
      interval_cases j
      decide
  · intro i hi _ off hoffs j h1 h2
    have hN : elementCount unusedFlagTbl = 1 := by decide
    have hi0 : i = 0 := by omega
    subst hi0
    have hk : keyOffset unusedFlagTbl 0 = 40 := by decide
    have hv : valueOffset unusedFlagTbl 0 = 42 := by decide
    have lk : (cstringAt unusedFlagTbl 40).length = 1 := by decide
    have lv : (cstringAt unusedFlagTbl 42).length = 1 := by decide
    rcases hoffs with h | h
    · rw [h, hk] at h1 h2
      rw [lk] at h2
      interval_cases j
      decide
    · rw [h, hv] at h1 h2
      rw [lv] at h2
      interval_cases j
      decide

end Pd2
